import Mathlib

/-!
# The RADOS access layer of the object gateway (`src/rgw/rgw_rados.cc`)

A shallow embedding of `RGWRados` and of the store it drives.

* `std::string`, `nstring` and `const char *` values are `Str`, a list of characters
  standing for a C string, on which `c_str()` is the identity; a `bufferlist` is a list
  of bytes (characters) that may hold NUL bytes, and `c_str` is its C-string view.
* `std::map<K, V>` is an association list, read by first match (`map_find`),
  assigned with `map_set` and iterated in list order.
* A pointer argument that may be `NULL` is an `Option`; reading through a `NULL`
  pointer makes the whole call `none`.
* The store (`Rados`, whose code is in librados and not in this file) is a state
  that is passed explicitly, and its calls are modelled from the Store Client Adapter
  of the specification.  Every store call first takes the next entry of the fault
  schedule `faults`: a negative entry makes that call fail with that code and leaves
  the store as it was.
* `int`, `off_t` and `time_t` values are integers; the conversions that the code makes
  between widths are `to_int` and `to_u64`.  Lengths and indices of strings are taken
  to fit in an `int`.
-/

namespace RGW

abbrev Str := List Char

abbrev bufferlist := List Char

/-! ## errno values -/

def ENOENT : Int := 2
def ENOSPC : Int := 28
def EEXIST : Int := 17
def EINVAL : Int := 22
def ENODATA : Int := 61
def ECANCELED : Int := 125

/-! ## Strings -/

/-- Byte-wise lexicographic "less than" of `std::string` (the order of `std::map<string, _>`). -/
def str_lt : Str → Str → Bool
  | [], [] => false
  | [], _ :: _ => true
  | _ :: _, [] => false
  | a :: as, b :: bs => if a < b then true else if b < a then false else str_lt as bs

/-- The C-string view of a buffer: the bytes before the first NUL. -/
def c_str (bl : bufferlist) : Str := bl.takeWhile (fun c => c ≠ Char.ofNat 0)

/-- The function `strcmp`, up to the sign of a non-zero result. -/
def strcmp (a b : Str) : Int :=
  if c_str a = c_str b then 0 else if str_lt (c_str a) (c_str b) then -1 else 1

/-- Search of `d` in `s`, where `s` is the part of the string that starts at index `i`:
the least index of an occurrence, or `none`. -/
def find_at (d : Str) : Str → Nat → Option Nat
  | [], i => if d = [] then some i else none
  | c :: cs, i => if d.isPrefixOf (c :: cs) then some i else find_at d cs (i + 1)

/-- The call `s.find(d, pos)` converted to `int` as in `int delim_pos = ...`:
the least index `i >= pos` at which `d` occurs in `s`, and `-1` (the conversion of
`npos`) when there is none.  Indices are taken to fit in an `int`. -/
def string_find (s d : Str) (pos : Nat) : Int :=
  if s.length < pos then -1
  else match find_at d (s.drop pos) pos with
    | some i => (i : Int)
    | none => -1

/-- The call `s.substr(0, n)`. -/
def substr0 (s : Str) (n : Nat) : Str := s.take n

/-! ## `std::map` as an association list -/

/-- Lookup `m.find(k)`: the first entry of key `k`. -/
def map_find {β : Type} : List (Str × β) → Str → Option β
  | [], _ => none
  | (k', v) :: m, k => if k' = k then some v else map_find m k

/-- Assignment `m[k] = v`: replaces the entry of `k`, or inserts it before the first
larger key. -/
def map_set {β : Type} : List (Str × β) → Str → β → List (Str × β)
  | [], k, v => [(k, v)]
  | (k', v') :: m, k, v =>
    if k' = k then (k, v) :: m
    else if str_lt k k' then (k, v) :: (k', v') :: m
    else (k', v') :: map_set m k v

/-- Removal of every entry of key `k`. -/
def map_erase {β : Type} (m : List (Str × β)) (k : Str) : List (Str × β) :=
  m.filter (fun e => e.1 ≠ k)

/-- The call `m.lower_bound(k)`: the entries from the first one whose key is not less
than `k`. -/
def lower_bound {β : Type} (m : List (Str × β)) (k : Str) : List (Str × β) :=
  m.dropWhile (fun e => str_lt e.1 k)

/-- A map whose keys are strictly ascending, as those of a `std::map` are. -/
def keys_sorted {β : Type} (m : List (Str × β)) : Prop :=
  (m.map Prod.fst).Pairwise (fun a b => str_lt a b = true)

/-! ## The store -/

/-- Modelled from the spec: an object of the backing store (section 3, "Object"): its
bytes, its extended attributes and its last-modified time. -/
structure RadosObject where
  data : bufferlist
  xattrs : List (Str × bufferlist)
  mtime : Int
deriving DecidableEq

/-- Modelled from the spec: a pool (section 3, "Pool"), a flat collection of named
objects, in the order the store enumerates them. -/
structure RadosPool where
  auid : Nat
  objects : List (Str × RadosObject)
deriving DecidableEq

/-- Modelled from the spec: the backing store behind `Rados` (librados): the pools by
name, the store clock, the pending faults of the coming store calls (section 4.1: every
call may fail), and the lines `rados->read ofs=.. len=..` that `get_obj` writes to
`cout`. -/
structure Rados where
  pools : List (Str × RadosPool)
  clock : Int
  faults : List Int
  cout : List (Int × Nat)
deriving DecidableEq

abbrev rados_pool_t := Str

/-- The name wrapper `object_t` (declared in `include/object.h`). -/
structure object_t where
  name : Str
deriving DecidableEq

/-- Modelled from the spec: the fault of the next store call (`0`: none). -/
def Rados.fault_code (w : Rados) : Int := w.faults.headD 0

/-- Modelled from the spec: the store once the next store call has taken its entry of
the fault schedule. -/
def Rados.fault_pop (w : Rados) : Rados := { w with faults := w.faults.tail }

/-- Modelled from the spec: the object `oid` of `pool`, when both exist. -/
def Rados.get_object (w : Rados) (pool : rados_pool_t) (oid : object_t) : Option RadosObject :=
  match map_find w.pools pool with
  | none => none
  | some p => map_find p.objects oid.name

/-- Modelled from the spec: the store with object `oid` of the (existing) pool set to
`o`. -/
def Rados.set_object (w : Rados) (pool : rados_pool_t) (oid : object_t) (o : RadosObject) : Rados :=
  match map_find w.pools pool with
  | none => w
  | some p =>
    { w with pools := map_set w.pools pool { p with objects := map_set p.objects oid.name o } }

/-- Modelled from the spec: `open(name) -> PoolHandle | NotFound` of the Store Client
Adapter (`Rados::open_pool`, librados).  The handle is the pool name. -/
def Rados.open_pool (w : Rados) (name : Str) : Int × rados_pool_t × Rados :=
  if w.fault_code < 0 then (w.fault_code, [], w.fault_pop)
  else match map_find w.pools name with
    | none => (-ENOENT, [], w.fault_pop)
    | some _ => (0, name, w.fault_pop)

/-- Modelled from the spec: releasing a pool handle (`Rados::close_pool`, librados). -/
def Rados.close_pool (w : Rados) (_pool : rados_pool_t) : Rados := w.fault_pop

/-- Modelled from the spec: `createExclusive(name) -> PoolHandle | AlreadyExists`
(`Rados::create_pool`, librados), the pool optionally tagged with an owner id. -/
def Rados.create_pool (w : Rados) (name : Str) (auid : Nat) : Int × Rados :=
  if w.fault_code < 0 then (w.fault_code, w.fault_pop)
  else match map_find w.pools name with
    | some _ => (-EEXIST, w.fault_pop)
    | none => (0, { w.fault_pop with pools := map_set w.pools name ⟨auid, []⟩ })

/-- Modelled from the spec: `deletePool(pool)` (`Rados::delete_pool`, librados). -/
def Rados.delete_pool (w : Rados) (pool : rados_pool_t) : Int × Rados :=
  if w.fault_code < 0 then (w.fault_code, w.fault_pop)
  else match map_find w.pools pool with
    | none => (-ENOENT, w.fault_pop)
    | some _ => (0, { w.fault_pop with pools := map_erase w.pools pool })

/-- Modelled from the spec: `createObject(pool, key, exclusive bool) -> OK | AlreadyExists`
(`Rados::create`, librados). -/
def Rados.create (w : Rados) (pool : rados_pool_t) (oid : object_t) (exclusive : Bool) :
    Int × Rados :=
  if w.fault_code < 0 then (w.fault_code, w.fault_pop)
  else match map_find w.pools pool with
    | none => (-ENOENT, w.fault_pop)
    | some _ =>
      match w.get_object pool oid with
      | some _ => if exclusive then (-EEXIST, w.fault_pop) else (0, w.fault_pop)
      | none => (0, w.fault_pop.set_object pool oid ⟨[], [], w.clock⟩)

/-- Modelled from the spec: `stat(pool, key) -> (size, mtime) | NotFound`
(`Rados::stat`, librados).  The result is the return code, the size and the mtime. -/
def Rados.stat (w : Rados) (pool : rados_pool_t) (oid : object_t) : Int × Nat × Int × Rados :=
  if w.fault_code < 0 then (w.fault_code, 0, 0, w.fault_pop)
  else match w.get_object pool oid with
    | none => (-ENOENT, 0, 0, w.fault_pop)
    | some o => (0, o.data.length, o.mtime, w.fault_pop)

/-- Modelled from the spec: `getAttr(pool, key, name) -> bytes | Error`
(`Rados::getxattr`, librados); on success the return code is the length of the value. -/
def Rados.getxattr (w : Rados) (pool : rados_pool_t) (oid : object_t) (name : Str) :
    Int × bufferlist × Rados :=
  if w.fault_code < 0 then (w.fault_code, [], w.fault_pop)
  else match w.get_object pool oid with
    | none => (-ENOENT, [], w.fault_pop)
    | some o =>
      match map_find o.xattrs name with
      | none => (-ENODATA, [], w.fault_pop)
      | some v => ((v.length : Int), v, w.fault_pop)

/-- Modelled from the spec: `getAllAttrs(pool, key) -> mapping`
(`Rados::getxattrs`, librados). -/
def Rados.getxattrs (w : Rados) (pool : rados_pool_t) (oid : object_t) :
    Int × List (Str × bufferlist) × Rados :=
  if w.fault_code < 0 then (w.fault_code, [], w.fault_pop)
  else match w.get_object pool oid with
    | none => (-ENOENT, [], w.fault_pop)
    | some o => (0, o.xattrs, w.fault_pop)

/-- Modelled from the spec: `setAttr(pool, key, name) -> bytes | Error`
(`Rados::setxattr`, librados).  As a put writes the attributes of a new object before
its bytes, an absent object is created by the call. -/
def Rados.setxattr (w : Rados) (pool : rados_pool_t) (oid : object_t) (name : Str)
    (bl : bufferlist) : Int × Rados :=
  if w.fault_code < 0 then (w.fault_code, w.fault_pop)
  else match map_find w.pools pool with
    | none => (-ENOENT, w.fault_pop)
    | some _ =>
      match w.get_object pool oid with
      | none => (0, w.fault_pop.set_object pool oid ⟨[], [(name, bl)], w.clock⟩)
      | some o =>
        (0, w.fault_pop.set_object pool oid { o with xattrs := map_set o.xattrs name bl,
                                                      mtime := w.clock })

/-- Modelled from the spec: the bytes of an object after the byte range `bl` is written
at offset `off`: the range is replaced, a gap is filled with NUL bytes and what lies
behind the range is kept. -/
def write_range (old : bufferlist) (off : Nat) (bl : bufferlist) : bufferlist :=
  old.take off ++ List.replicate (off - old.length) (Char.ofNat 0) ++ bl
    ++ old.drop (off + bl.length)

/-- Modelled from the spec: `write(pool, key, offset, bytes) -> bytesWritten | Error`
(`Rados::write`, librados): the write of a byte range, which creates an absent object. -/
def Rados.write (w : Rados) (pool : rados_pool_t) (oid : object_t) (off : Nat)
    (bl : bufferlist) (len : Nat) : Int × Rados :=
  if w.fault_code < 0 then (w.fault_code, w.fault_pop)
  else match map_find w.pools pool with
    | none => (-ENOENT, w.fault_pop)
    | some _ =>
      match w.get_object pool oid with
      | none =>
        ((len : Int), w.fault_pop.set_object pool oid ⟨write_range [] off (bl.take len), [], w.clock⟩)
      | some o =>
        ((len : Int), w.fault_pop.set_object pool oid
          { o with data := write_range o.data off (bl.take len), mtime := w.clock })

/-- Modelled from the spec: `read(pool, key, offset, length) -> bytes | Error`
(`Rados::read`, librados); a length of 0 reads from the offset to the end of the
object.  The return code is the number of bytes read. -/
def Rados.read (w : Rados) (pool : rados_pool_t) (oid : object_t) (off : Int) (len : Nat) :
    Int × bufferlist × Rados :=
  if w.fault_code < 0 then (w.fault_code, [], w.fault_pop)
  else match w.get_object pool oid with
    | none => (-ENOENT, [], w.fault_pop)
    | some o =>
      if off < 0 then (-EINVAL, [], w.fault_pop)
      else
        let bytes := if len = 0 then o.data.drop off.toNat else (o.data.drop off.toNat).take len
        ((bytes.length : Int), bytes, w.fault_pop)

/-- Modelled from the spec: `listObjects(pool, batchSize, continuationState) ->
(names, newState, more bool)` (`Rados::list` with its `ListCtx`, librados): the next
`max` objects after position `ctx`; the return code is non-zero while more remain. -/
def Rados.list (w : Rados) (pool : rados_pool_t) (max : Nat) (ctx : Nat) :
    Int × List object_t × Nat × Rados :=
  if w.fault_code < 0 then (w.fault_code, [], ctx, w.fault_pop)
  else match map_find w.pools pool with
    | none => (-ENOENT, [], ctx, w.fault_pop)
    | some p =>
      let entries := ((p.objects.drop ctx).take max).map (fun e => object_t.mk e.1)
      let more : Int := if ctx + max < p.objects.length then 1 else 0
      (more, entries, ctx + entries.length, w.fault_pop)

/-! ## `RGWRados` -/

/-- Modelled from the spec: the reserved attribute name of the entity tag
(`RGW_ATTR_ETAG`, declared in `rgw_access.h`). -/
def RGW_ATTR_ETAG : Str := "user.rgw.etag".toList

/-- Modelled from the spec: the fixed maximum length of a returned etag, the size of
the buffer `RGWObjEnt::etag` (declared in `rgw_access.h`). -/
def ETAG_SIZE : Nat := 33

def ROOT_BUCKET : Str := ".rgw".toList

def root_bucket : Str := ROOT_BUCKET

/-- The handle `root_pool`, which `initialize` opens on the pool `root_bucket`. -/
def root_pool : rados_pool_t := root_bucket

def MAX_ENTRIES : Nat := 1000

/-- A listing entry (`RGWObjEnt`, declared in `rgw_access.h`). -/
structure RGWObjEnt where
  name : Str
  size : Nat
  mtime : Int
  etag : Str
deriving DecidableEq

/-- The error descriptor (`struct rgw_err`, declared in `rgw_access.h`). -/
structure rgw_err where
  num : String
  code : String
deriving DecidableEq

/-- Conversion of a 64-bit value to `int`, as in `r = size`. -/
def to_int (n : Int) : Int := (n + 2 ^ 31) % 2 ^ 32 - 2 ^ 31

/-- Conversion of a signed value to `__u64`, as in `len = end - ofs + 1`. -/
def to_u64 (n : Int) : Nat := (n % 2 ^ 64).toNat

def open_pool (w : Rados) (bucket : Str) : Int × rados_pool_t × Rados :=
  w.open_pool bucket

/-- Lines 153-161 of `list_objects`: the entries of one batch whose name starts with
the prefix are assigned into `dir_map`. -/
def list_objects_entries (prefix_ : Str) (entries : List object_t)
    (dir_map : List (Str × object_t)) : List (Str × object_t) :=
  entries.foldl (fun dm iter =>
    let name := iter.name
    if prefix_ = [] ∨ name.take prefix_.length = prefix_ then map_set dm name iter else dm)
    dir_map

/-- Lines 147-162 of `list_objects`: the `do .. while (r)` loop that drains the
enumeration of the pool.  The first argument bounds the number of rounds; with the
number of objects of the pool plus one it is never used up
(`list_objects_drain_fuel`). -/
def list_objects_drain (prefix_ : Str) (pool : rados_pool_t) :
    Nat → Rados → Nat → List (Str × object_t) → Int × List (Str × object_t) × Rados
  | 0, w, _, dir_map => (0, dir_map, w)
  | fuel + 1, w, ctx, dir_map =>
    match w.list pool MAX_ENTRIES ctx with
    | (r, entries, ctx1, w1) =>
      if r < 0 then (r, dir_map, w1)
      else if r ≠ 0 then
        list_objects_drain prefix_ pool fuel w1 ctx1 (list_objects_entries prefix_ entries dir_map)
      else (r, list_objects_entries prefix_ entries dir_map, w1)

/-- Lines 189-200 of `list_objects`: the entry of a literal result; `none` when the
stat fails. -/
def list_objects_entry (pool : rados_pool_t) (name : Str) (second : object_t) (w : Rados) :
    Option RGWObjEnt × Rados :=
  match w.stat pool second with
  | (r, s, mtime, w1) =>
    if r < 0 then (none, w1)
    else
      match w1.getxattr pool second RGW_ATTR_ETAG with
      | (r2, bl, w2) =>
        (some ⟨name, s, mtime, if 0 ≤ r2 then (c_str bl).take (ETAG_SIZE - 1) else []⟩, w2)

/-- Lines 180-183 of `list_objects`: whether the key is skipped as a literal result,
that is `!delim.empty()` and `delim_pos >= 0`. -/
def list_objects_skip (prefix_ delim name : Str) : Bool :=
  decide (delim ≠ [] ∧ 0 ≤ string_find name delim prefix_.length)

/-- Line 184 of `list_objects`: the key `obj.name.substr(0, delim_pos + 1)` that is
marked in `common_prefixes`. -/
def list_objects_common (prefix_ delim name : Str) : Str :=
  substr0 name (string_find name delim prefix_.length + 1).toNat

/-- Lines 176-201 of `list_objects`: the loop `for (i=0; i<max && map_iter != end; ..)`. -/
def list_objects_loop (pool : rados_pool_t) (prefix_ delim : Str) (max : Int) :
    Int → List (Str × object_t) → List RGWObjEnt → List (Str × Bool) → Rados →
      List RGWObjEnt × List (Str × Bool) × Rados
  | _, [], result, common_prefixes, w => (result, common_prefixes, w)
  | i, (first, second) :: map_iter, result, common_prefixes, w =>
    if i < max then
      if list_objects_skip prefix_ delim first then
        list_objects_loop pool prefix_ delim max (i + 1) map_iter result
          (map_set common_prefixes (list_objects_common prefix_ delim first) true) w
      else
        match list_objects_entry pool first second w with
        | (none, w1) =>
          list_objects_loop pool prefix_ delim max (i + 1) map_iter result common_prefixes w1
        | (some obj, w1) =>
          list_objects_loop pool prefix_ delim max (i + 1) map_iter (result ++ [obj])
            common_prefixes w1
    else (result, common_prefixes, w)

/-- Modelled from the spec: the number of objects of a pool. -/
def Rados.pool_size (w : Rados) (pool : rados_pool_t) : Nat :=
  match map_find w.pools pool with
  | none => 0
  | some p => p.objects.length

/-- The method `RGWRados::list_objects`.  `result` and `common_prefixes` are the
caller's containers; the value is the return code, their new contents and the store. -/
def list_objects (w : Rados) (_id bucket : Str) (max : Int) (prefix_ delim marker : Str)
    (result : List RGWObjEnt) (common_prefixes : List (Str × Bool)) :
    Int × List RGWObjEnt × List (Str × Bool) × Rados :=
  match w.open_pool bucket with
  | (r, pool, w1) =>
    if r < 0 then (r, result, common_prefixes, w1)
    else
      match list_objects_drain prefix_ pool (w1.pool_size pool + 1) w1 0 [] with
      | (r, dir_map, w2) =>
        if r < 0 then (r, result, common_prefixes, w2)
        else
          let map_iter := if marker ≠ [] then lower_bound dir_map marker else dir_map
          let max := if max < 0 then (dir_map.length : Int) else max
          match list_objects_loop pool prefix_ delim max 0 map_iter [] common_prefixes w2 with
          | (result, common_prefixes, w3) => (0, result, common_prefixes, w3.close_pool pool)

/-- The method `RGWRados::delete_bucket`. -/
def delete_bucket (w : Rados) (_id bucket : Str) : Int × Rados :=
  match open_pool w bucket with
  | (r, pool, w1) =>
    if r < 0 then (r, w1)
    else
      match w1.delete_pool pool with
      | (r, w2) => if r < 0 then (r, w2) else (0, w2)

/-- Lines 221-232 of `create_bucket`: the attribute loop; `some ret` when it returns
from the function. -/
def create_bucket_attrs (id bucket : Str) (bucket_oid : object_t) :
    List (Str × bufferlist) → Rados → Option Int × Rados
  | [], w => (none, w)
  | (name, bl) :: iter, w =>
    if bl.length ≠ 0 then
      match w.setxattr root_pool bucket_oid name bl with
      | (ret, w1) =>
        if ret < 0 then (some ret, (delete_bucket w1 id bucket).2)
        else create_bucket_attrs id bucket bucket_oid iter w1
    else create_bucket_attrs id bucket bucket_oid iter w

/-- The method `RGWRados::create_bucket`. -/
def create_bucket (w : Rados) (id bucket : Str) (attrs : List (Str × bufferlist)) (auid : Nat) :
    Int × Rados :=
  match w.create root_pool ⟨bucket⟩ true with
  | (ret, w1) =>
    if ret < 0 then (ret, w1)
    else
      match create_bucket_attrs id bucket ⟨bucket⟩ attrs w1 with
      | (some ret, w2) => (ret, w2)
      | (none, w2) => w2.create_pool bucket auid

/-- Lines 263-272 of `put_obj`: the attribute loop; `some r` when it returns from the
function. -/
def put_obj_attrs (pool : rados_pool_t) (oid : object_t) :
    List (Str × bufferlist) → Rados → Option Int × Rados
  | [], w => (none, w)
  | (name, bl) :: iter, w =>
    if bl.length ≠ 0 then
      match w.setxattr pool oid name bl with
      | (r, w1) => if r < 0 then (some r, w1) else put_obj_attrs pool oid iter w1
    else put_obj_attrs pool oid iter w

/-- The method `RGWRados::put_obj`: `data` holds at least `size` bytes; `mtime` is the
value behind the pointer (`none` for `NULL`), before and after the call. -/
def put_obj (w : Rados) (_id bucket obj : Str) (data : bufferlist) (size : Nat)
    (mtime : Option Int) (attrs : List (Str × bufferlist)) : Int × Option Int × Rados :=
  match open_pool w bucket with
  | (r, pool, w1) =>
    if r < 0 then (r, mtime, w1)
    else
      match put_obj_attrs pool ⟨obj⟩ attrs w1 with
      | (some r, w2) => (r, mtime, w2)
      | (none, w2) =>
        match w2.write pool ⟨obj⟩ 0 (data.take size) size with
        | (r, w3) =>
          if r < 0 then (r, mtime, w3)
          else
            match mtime with
            | none => (0, mtime, w3)
            | some _ =>
              match w3.stat pool ⟨obj⟩ with
              | (r, _, t, w4) => if r < 0 then (r, mtime, w4) else (0, some t, w4)

/-- The method `RGWRados::get_attr`. -/
def get_attr (w : Rados) (bucket obj name : Str) : Int × bufferlist × Rados :=
  let actual_bucket := if obj.length = 0 then root_bucket else bucket
  let actual_obj := if obj.length = 0 then bucket else obj
  match open_pool w actual_bucket with
  | (r, pool, w1) =>
    if r < 0 then (r, [], w1)
    else
      match w1.getxattr pool ⟨actual_obj⟩ name with
      | (r, dest, w2) => if r < 0 then (r, dest, w2) else (0, dest, w2)

/-- The method `RGWRados::set_attr`. -/
def set_attr (w : Rados) (bucket obj name : Str) (bl : bufferlist) : Int × Rados :=
  match open_pool w bucket with
  | (r, pool, w1) =>
    if r < 0 then (r, w1)
    else
      match w1.setxattr pool ⟨obj⟩ name bl with
      | (r, w2) => if r < 0 then (r, w2) else (0, w2)

/-- Lines 513-536 of `get_obj`: the etag checks.  The value is `some r` when the
function jumps to `done` with return code `r` (`none` when the checks pass), the error
descriptor and the store. -/
def get_obj_etag (w : Rados) (bucket obj : Str) (if_match if_nomatch : Option Str)
    (err : rgw_err) : Option Int × rgw_err × Rados :=
  if if_match.isSome ∨ if_nomatch.isSome then
    match get_attr w bucket obj RGW_ATTR_ETAG with
    | (r, etag, w1) =>
      if r < 0 then (some r, err, w1)
      else if if_match.isSome ∧ strcmp (if_match.getD []) etag ≠ 0 then
        (some (-ECANCELED), ⟨"412", "PreconditionFailed"⟩, w1)
      else if if_nomatch.isSome ∧ strcmp (if_nomatch.getD []) etag = 0 then
        (some (-ECANCELED), ⟨"412", "PreconditionFailed"⟩, w1)
      else (none, err, w1)
  else (none, err, w)

/-- Lines 497-536 of `get_obj`: the precondition checks.  The value is `none` when
`*mod_ptr` is read through a `NULL` pointer; otherwise as in `get_obj_etag`. -/
def get_obj_cond (w : Rados) (bucket obj : Str) (mtime : Int) (mod_ptr unmod_ptr : Option Int)
    (if_match if_nomatch : Option Str) (err : rgw_err) : Option (Option Int × rgw_err × Rados) :=
  if mod_ptr.isSome ∧ mtime < mod_ptr.getD 0 then
    some (some (-ECANCELED), ⟨"304", "PreconditionFailed"⟩, w)
  else
    match unmod_ptr with
    | some _ =>
      match mod_ptr with
      | none => none
      | some m =>
        if mtime ≥ m then some (some (-ECANCELED), ⟨"412", "PreconditionFailed"⟩, w)
        else some (get_obj_etag w bucket obj if_match if_nomatch err)
    | none => some (get_obj_etag w bucket obj if_match if_nomatch err)

/-- What `get_obj` hands back: the return code, the bytes `*data` points to when it
was set, the map behind `attrs`, the error descriptor and the store. -/
structure get_obj_ret where
  r : Int
  data : Option bufferlist
  attrs : Option (List (Str × bufferlist))
  err : rgw_err
  w : Rados
deriving DecidableEq

/-- Lines 538-557 of `get_obj`: the size, or the read of the range. -/
def get_obj_data (w : Rados) (pool : rados_pool_t) (oid : object_t) (size : Nat)
    (ofs end_ : Int) (attrs : Option (List (Str × bufferlist))) (get_data : Bool)
    (err : rgw_err) : get_obj_ret :=
  if ¬ get_data then ⟨to_int size, none, attrs, err, w⟩
  else
    let len : Nat := if end_ ≤ 0 then 0 else to_u64 (end_ - ofs + 1)
    match ({ w with cout := w.cout ++ [(ofs, len)] } : Rados).read pool oid ofs len with
    | (r, bl, w1) =>
      if r < 0 then ⟨r, none, attrs, err, w1⟩
      else if r > 0 then ⟨r, some bl, attrs, err, w1⟩
      else ⟨r, none, attrs, err, w1⟩

/-- The method `RGWRados::get_obj`.  `attrs`, `mod_ptr`, `unmod_ptr`, `if_match` and
`if_nomatch` are `none` for a `NULL` pointer; the value is `none` when the call reads
through a `NULL` pointer. -/
def get_obj (w : Rados) (bucket obj : Str) (ofs end_ : Int)
    (attrs : Option (List (Str × bufferlist))) (mod_ptr unmod_ptr : Option Int)
    (if_match if_nomatch : Option Str) (get_data : Bool) (err : rgw_err) : Option get_obj_ret :=
  match open_pool w bucket with
  | (r, pool, w1) =>
    if r < 0 then some ⟨r, none, attrs, err, w1⟩
    else
      match w1.stat pool ⟨obj⟩ with
      | (r, size, mtime, w2) =>
        if r < 0 then some ⟨r, none, attrs, err, w2⟩
        else
          match (match attrs with
                 | none => ((0 : Int), attrs, w2)
                 | some _ =>
                   match w2.getxattrs pool ⟨obj⟩ with
                   | (r, m, w3) => (r, some m, w3)) with
          | (r, attrs, w3) =>
            if r < 0 then some ⟨r, none, attrs, err, w3⟩
            else
              match get_obj_cond w3 bucket obj mtime mod_ptr unmod_ptr if_match if_nomatch err with
              | none => none
              | some (some r, err, w4) => some ⟨r, none, attrs, err, w4⟩
              | some (none, err, w4) =>
                some (get_obj_data w4 pool ⟨obj⟩ size ofs end_ attrs get_data err)

/-- What `copy_obj` hands back: the return code, the value behind `mtime`, the map
`attrs` (in/out), the error descriptor and the store. -/
structure copy_obj_ret where
  ret : Int
  mtime : Option Int
  attrs : List (Str × bufferlist)
  err : rgw_err
  w : Rados
deriving DecidableEq

/-- The method `RGWRados::copy_obj`. -/
def copy_obj (w : Rados) (id dest_bucket dest_obj src_bucket src_obj : Str)
    (mtime : Option Int) (mod_ptr unmod_ptr : Option Int) (if_match if_nomatch : Option Str)
    (attrs : List (Str × bufferlist)) (err : rgw_err) : Option copy_obj_ret :=
  match get_obj w src_bucket src_obj 0 (-1) (some []) mod_ptr unmod_ptr if_match if_nomatch
      true err with
  | none => none
  | some g =>
    if g.r < 0 then some ⟨g.r, mtime, attrs, g.err, g.w⟩
    else
      let attrset := attrs.foldl (fun m iter => map_set m iter.1 iter.2) (g.attrs.getD [])
      match put_obj g.w id dest_bucket dest_obj (g.data.getD []) g.r.toNat mtime attrset with
      | (ret, mtime, w1) => some ⟨ret, mtime, attrset, g.err, w1⟩

/-! ## Notions used in the statements -/

/-- The keys that the loop of `list_objects` consumes when it starts at `rest` with
counter `i`. -/
def consumed (max i : Int) (rest : List (Str × object_t)) : List Str :=
  (rest.take (max - i).toNat).map Prod.fst

/-- The sorted names of the objects of pool `p` that start with the prefix: the keys of
`dir_map` once the pool is drained. -/
def dir_keys (pfx : Str) (p : RadosPool) : List Str :=
  (list_objects_entries pfx (p.objects.map (fun e => object_t.mk e.1)) []).map Prod.fst

/-- The keys that `list_objects` consumes out of the sorted keys `S`. -/
def window (S : List Str) (marker : Str) (max : Int) : List Str :=
  (S.filter (fun k => !str_lt k marker)).take (if max < 0 then S.length else max.toNat)

/-- The bytes of object `oid` of `pool` (none when it does not exist). -/
def Rados.obj_data (w : Rados) (pool : rados_pool_t) (oid : object_t) : bufferlist :=
  match w.get_object pool oid with
  | none => []
  | some o => o.data

/-- The value of attribute `k` of object `oid` of `pool`, when it is set. -/
def Rados.obj_attr (w : Rados) (pool : rados_pool_t) (oid : object_t) (k : Str) :
    Option bufferlist :=
  match w.get_object pool oid with
  | none => none
  | some o => map_find o.xattrs k

/-- The value of an attribute on the object that `put_obj` writes to: the value `m`
given for it when there is one and it is not empty, and the `old` value otherwise. -/
def attr_written (m old : Option bufferlist) : Option bufferlist :=
  match m with
  | some v => if v = [] then old else some v
  | none => old

/-- The attribute map that `copy_obj` writes: `X` over `A`. -/
def merged_attr (A X : List (Str × bufferlist)) (n : Str) : Option bufferlist :=
  match map_find X n with
  | some v => some v
  | none => map_find A n

/-! ## Example stores -/

/-- An error descriptor that has not been filled. -/
def no_err : rgw_err := ⟨"", ""⟩

/-- The object `k` of the example bucket: 11 bytes, an etag, mtime 50. -/
def object_k : RadosObject :=
  ⟨"hello world".toList, [(RGW_ATTR_ETAG, "e1".toList)], 50⟩

/-- A store with the root pool and the bucket `b`, which holds the object `k`. -/
def store_b : Rados :=
  ⟨[(ROOT_BUCKET, ⟨0, [("b".toList, ⟨[], [], 0⟩)]⟩), ("b".toList, ⟨0, [("k".toList, object_k)]⟩)],
    60, [], []⟩

/-- A store whose bucket `b` is registered and empty. -/
def store_empty_bucket : Rados :=
  ⟨[(ROOT_BUCKET, ⟨0, [("b".toList, ⟨[], [], 0⟩)]⟩), ("b".toList, ⟨0, []⟩)], 60, [], []⟩

/-- A store with the root pool only, in which the second store call to come fails
with `-ENOSPC`. -/
def store_failing_setxattr : Rados :=
  ⟨[(ROOT_BUCKET, ⟨0, []⟩)], 60, [0, -ENOSPC], []⟩

/-- A store whose bucket `b` holds the objects `a/x`, `a/y`, `b/z` (enumerated in
another order). -/
def store_dirs : Rados :=
  ⟨[("b".toList, ⟨0, [("b/z".toList, ⟨"3".toList, [], 50⟩), ("a/y".toList, ⟨"2".toList, [], 50⟩),
      ("a/x".toList, ⟨"1".toList, [], 50⟩)]⟩)], 60, [], []⟩

/-- A store whose bucket `b` holds the objects `xabz` and `y`. -/
def store_two_char : Rados :=
  ⟨[("b".toList, ⟨0, [("y".toList, ⟨"2".toList, [], 50⟩), ("xabz".toList, ⟨"1".toList, [], 50⟩)]⟩)],
    60, [], []⟩

/-- A store whose bucket `b` holds the object `s` with the attributes `x = 0`, `y = 2`. -/
def store_copy : Rados :=
  ⟨[("b".toList, ⟨0, [("s".toList,
      ⟨"hello".toList, [("x".toList, "0".toList), ("y".toList, "2".toList)], 50⟩)]⟩)], 60, [], []⟩

/-- What the copy of `s` to `d` in `store_copy` with the extra attribute `x = 1`
hands back. -/
def copy_result : copy_obj_ret :=
  ⟨0, none, [("x".toList, "1".toList), ("y".toList, "2".toList)], no_err,
    ⟨[("b".toList, ⟨0, [("d".toList,
        ⟨"hello".toList, [("x".toList, "1".toList), ("y".toList, "2".toList)], 60⟩),
      ("s".toList,
        ⟨"hello".toList, [("x".toList, "0".toList), ("y".toList, "2".toList)], 50⟩)]⟩)],
      60, [], [(0, 0)]⟩⟩

/-- What the read of the bytes 1 to 4 of `k` in `store_b` hands back. -/
def read_result : get_obj_ret :=
  ⟨4, some "ello".toList, none, no_err, { store_b with cout := [(1, 4)] }⟩

/-- A store whose bucket `b` holds the objects `xa` and `xabz`. -/
def store_overlap : Rados :=
  ⟨[("b".toList, ⟨0, [("xa".toList, ⟨"2".toList, [], 50⟩), ("xabz".toList, ⟨"1".toList, [], 50⟩)]⟩)],
    60, [], []⟩

/-! # Theorems -/

/-! ## The order of strings -/

theorem str_lt_irrefl (a : Str) : str_lt a a = false := by
  induction a with
  | nil => rfl
  | cons c cs ih => simp [str_lt, ih]

theorem str_lt_trans : ∀ (a b c : Str), str_lt a b = true → str_lt b c = true → str_lt a c = true
  | [], [], _, h, _ => by simp [str_lt] at h
  | [], _ :: _, [], _, h => by simp [str_lt] at h
  | [], _ :: _, _ :: _, _, _ => by simp [str_lt]
  | _ :: _, [], _, h, _ => by simp [str_lt] at h
  | _ :: _, _ :: _, [], _, h => by simp [str_lt] at h
  | x :: xs, y :: ys, z :: zs, h1, h2 => by
    simp only [str_lt] at h1 h2 ⊢
    rcases lt_trichotomy x y with hxy | hxy | hxy
    · rcases lt_trichotomy y z with hyz | hyz | hyz
      · simp [lt_trans hxy hyz]
      · subst hyz; simp [hxy]
      · simp [hyz, not_lt_of_gt hyz] at h2
    · subst hxy
      rcases lt_trichotomy x z with hyz | hyz | hyz
      · simp [hyz]
      · subst hyz
        simp only [lt_irrefl, if_false] at h1 h2 ⊢
        exact str_lt_trans xs ys zs h1 h2
      · simp [hyz, not_lt_of_gt hyz] at h2
    · simp [hxy, not_lt_of_gt hxy] at h1

theorem str_lt_connex : ∀ (a b : Str), str_lt a b = false → a ≠ b → str_lt b a = true
  | [], [], _, h => absurd rfl h
  | [], _ :: _, h, _ => by simp [str_lt] at h
  | _ :: _, [], _, _ => by simp [str_lt]
  | x :: xs, y :: ys, h1, h2 => by
    simp only [str_lt] at h1 ⊢
    rcases lt_trichotomy x y with hxy | hxy | hxy
    · simp [hxy] at h1
    · subst hxy
      simp only [lt_irrefl, if_false] at h1 ⊢
      exact str_lt_connex xs ys h1 (fun h => h2 (by rw [h]))
    · simp [hxy]

theorem str_lt_asymm (a b : Str) (h : str_lt a b = true) : str_lt b a = false := by
  by_contra h'
  have h2 : str_lt b a = true := by simpa using h'
  have := str_lt_trans a b a h h2
  rw [str_lt_irrefl] at this
  exact Bool.noConfusion this

theorem str_lt_ne (a b : Str) (h : str_lt a b = true) : a ≠ b := by
  rintro rfl
  rw [str_lt_irrefl] at h
  exact Bool.noConfusion h


/-! ## Association lists -/

theorem map_set_cons {β : Type} (a : Str) (b : β) (m : List (Str × β)) (k : Str) (v : β) :
    map_set ((a, b) :: m) k v =
      if a = k then (k, v) :: m
      else if str_lt k a = true then (k, v) :: (a, b) :: m
      else (a, b) :: map_set m k v := rfl

theorem map_find_cons {β : Type} (a : Str) (b : β) (m : List (Str × β)) (k : Str) :
    map_find ((a, b) :: m) k = if a = k then some b else map_find m k := rfl

theorem map_find_map_set {β : Type} (m : List (Str × β)) (k k' : Str) (v : β) :
    map_find (map_set m k v) k' = if k = k' then some v else map_find m k' := by
  induction m with
  | nil =>
    show (if k = k' then some v else none) = _
    rfl
  | cons e m ih =>
    obtain ⟨a, b⟩ := e
    rw [map_set_cons]
    by_cases h1 : a = k
    · rw [if_pos h1, map_find_cons, map_find_cons]
      by_cases h2 : k = k'
      · rw [if_pos h2, if_pos h2]
      · rw [if_neg h2, if_neg h2, if_neg (fun h => h2 (h1 ▸ h))]
    · rw [if_neg h1]
      by_cases h2 : str_lt k a = true
      · rw [if_pos h2, map_find_cons]
      · rw [if_neg h2, map_find_cons, map_find_cons, ih]
        by_cases h3 : a = k'
        · simp only [if_pos h3, if_neg (fun h : k = k' => h1 (h3.trans h.symm))]
        · simp only [if_neg h3]

theorem mem_keys_map_set {β : Type} (m : List (Str × β)) (k k' : Str) (v : β) :
    k' ∈ (map_set m k v).map Prod.fst ↔ k' = k ∨ k' ∈ m.map Prod.fst := by
  induction m with
  | nil =>
    show k' ∈ [k] ↔ _
    simp only [List.mem_singleton, List.map_nil, List.not_mem_nil, or_false]
  | cons e m ih =>
    obtain ⟨a, b⟩ := e
    rw [map_set_cons]
    by_cases h1 : a = k
    · rw [if_pos h1]
      subst h1
      simp only [List.map_cons, List.mem_cons]
      tauto
    · rw [if_neg h1]
      by_cases h2 : str_lt k a = true
      · rw [if_pos h2]
        simp only [List.map_cons, List.mem_cons]
      · rw [if_neg h2, List.map_cons, List.mem_cons, ih, List.map_cons, List.mem_cons]
        tauto

theorem mem_map_set {β : Type} (m : List (Str × β)) (k : Str) (v : β) (e : Str × β)
    (h : e ∈ map_set m k v) : e = (k, v) ∨ e ∈ m := by
  induction m with
  | nil =>
    have h' : e ∈ [(k, v)] := h
    exact Or.inl (List.mem_singleton.mp h')
  | cons x m ih =>
    obtain ⟨a, b⟩ := x
    rw [map_set_cons] at h
    by_cases h1 : a = k
    · rw [if_pos h1] at h
      rcases List.mem_cons.mp h with h | h
      · exact Or.inl h
      · exact Or.inr (List.mem_cons_of_mem _ h)
    · rw [if_neg h1] at h
      by_cases h2 : str_lt k a = true
      · rw [if_pos h2] at h
        rcases List.mem_cons.mp h with h | h
        · exact Or.inl h
        · exact Or.inr h
      · rw [if_neg h2] at h
        rcases List.mem_cons.mp h with h | h
        · exact Or.inr (h ▸ List.mem_cons_self _ _)
        · rcases ih h with h | h
          · exact Or.inl h
          · exact Or.inr (List.mem_cons_of_mem _ h)

theorem map_set_sorted {β : Type} (m : List (Str × β)) (k : Str) (v : β)
    (h : keys_sorted m) : keys_sorted (map_set m k v) := by
  unfold keys_sorted at *
  induction m with
  | nil =>
    show List.Pairwise _ [k]
    exact List.pairwise_singleton _ _
  | cons e m ih =>
    obtain ⟨a, b⟩ := e
    rw [List.map_cons, List.pairwise_cons] at h
    obtain ⟨h1, h2⟩ := h
    rw [map_set_cons]
    by_cases e1 : a = k
    · rw [if_pos e1, List.map_cons, List.pairwise_cons]
      subst e1
      exact ⟨h1, h2⟩
    · rw [if_neg e1]
      by_cases e2 : str_lt k a = true
      · rw [if_pos e2, List.map_cons, List.map_cons, List.pairwise_cons, List.pairwise_cons]
        refine ⟨?_, h1, h2⟩
        intro x hx
        rcases List.mem_cons.mp hx with hx | hx
        · rw [hx]; exact e2
        · exact str_lt_trans _ _ _ e2 (h1 x hx)
      · rw [if_neg e2, List.map_cons, List.pairwise_cons]
        refine ⟨?_, ih h2⟩
        intro x hx
        rcases (mem_keys_map_set m k x v).mp hx with hx | hx
        · rw [hx]
          exact str_lt_connex k a (by simpa using e2) (fun h => e1 h.symm)
        · exact h1 x hx

theorem map_find_isSome_of_mem {β : Type} (m : List (Str × β)) (k : Str)
    (h : k ∈ m.map Prod.fst) : ∃ v, map_find m k = some v := by
  induction m with
  | nil => simp at h
  | cons e m ih =>
    obtain ⟨a, b⟩ := e
    rw [map_find_cons]
    by_cases h1 : a = k
    · exact ⟨b, by rw [if_pos h1]⟩
    · rw [if_neg h1]
      rw [List.map_cons, List.mem_cons] at h
      rcases h with h | h
      · exact absurd h.symm h1
      · exact ih h

theorem str_lt_iff_lex : ∀ (a b : Str), str_lt a b = true ↔ List.Lex (fun x y : Char => x < y) a b
  | [], [] => by
    simp only [str_lt]
    constructor
    · intro h; exact Bool.noConfusion h
    · intro h; cases h
  | [], _ :: _ => by
    simp only [str_lt, true_iff]
    exact List.Lex.nil
  | _ :: _, [] => by
    simp only [str_lt]
    constructor
    · intro h; exact Bool.noConfusion h
    · intro h; cases h
  | x :: xs, y :: ys => by
    have ih := str_lt_iff_lex xs ys
    simp only [str_lt]
    constructor
    · intro h
      by_cases hxy : x < y
      · exact List.Lex.rel hxy
      · by_cases hyx : y < x
        · simp [hxy, hyx] at h
        · simp only [hxy, hyx, if_false] at h
          have : x = y := le_antisymm (not_lt.mp hyx) (not_lt.mp hxy)
          subst this
          exact List.Lex.cons (ih.mp h)
    · intro h
      cases h with
      | cons h => simp [ih.mpr h]
      | rel h => simp [h]

theorem str_lt_iff_lt (a b : Str) : str_lt a b = true ↔ a < b := str_lt_iff_lex a b

/-! ## Search in a string -/

theorem find_at_none (d : Str) (hd : d ≠ []) (s : Str) (i : Nat) :
    find_at d s i = none ↔ ∀ j, ¬ d <+: s.drop j := by
  induction s generalizing i with
  | nil =>
    simp only [find_at, if_neg hd, List.drop_nil, List.prefix_nil, true_iff]
    exact fun _ => hd
  | cons c cs ih =>
    simp only [find_at, List.isPrefixOf_iff_prefix]
    by_cases h : d <+: c :: cs
    · rw [if_pos h]
      constructor
      · intro h'; cases h'
      · intro h'; exact absurd h (h' 0)
    · simp only [if_neg h, ih]
      constructor
      · intro h' j
        cases j with
        | zero => exact h
        | succ j => exact h' j
      · intro h' j
        exact h' (j + 1)

theorem find_at_some (d : Str) (s : Str) (i r : Nat) (h : find_at d s i = some r) :
    i ≤ r ∧ d <+: s.drop (r - i) ∧ ∀ j, j < r - i → ¬ d <+: s.drop j := by
  induction s generalizing i with
  | nil =>
    simp only [find_at] at h
    by_cases hd : d = []
    · rw [if_pos hd] at h
      cases h
      subst hd
      simp
    · rw [if_neg hd] at h
      cases h
  | cons c cs ih =>
    simp only [find_at, List.isPrefixOf_iff_prefix] at h
    by_cases hp : d <+: c :: cs
    · rw [if_pos hp] at h
      cases h
      simpa using hp
    · rw [if_neg hp] at h
      obtain ⟨h1, h2, h3⟩ := ih (i + 1) h
      have e : r - i = (r - (i + 1)) + 1 := by omega
      refine ⟨by omega, ?_, ?_⟩
      · rw [e]
        exact h2
      · intro j hj
        cases j with
        | zero => exact hp
        | succ j => exact h3 j (by omega)

theorem string_find_neg (s d : Str) (hd : d ≠ []) (pos : Nat) :
    string_find s d pos < 0 ↔ ∀ i, pos ≤ i → ¬ d <+: s.drop i := by
  unfold string_find
  by_cases hl : s.length < pos
  · rw [if_pos hl]
    simp only [Int.reduceNeg, Left.neg_neg_iff, zero_lt_one, true_iff]
    intro i hi
    rw [List.drop_of_length_le (by omega), List.prefix_nil]
    exact hd
  · rw [if_neg hl]
    cases hf : find_at d (s.drop pos) pos with
    | none =>
      simp only [Int.reduceNeg, Left.neg_neg_iff, zero_lt_one, true_iff]
      intro i hi
      have := (find_at_none d hd _ _).mp hf (i - pos)
      rw [List.drop_drop] at this
      have e : pos + (i - pos) = i := by omega
      rwa [e] at this
    | some r =>
      obtain ⟨h1, h2, _⟩ := find_at_some d _ _ _ hf
      simp only [List.drop_drop] at h2
      constructor
      · intro h
        simp only at h
        omega
      · intro h
        exfalso
        have e : pos + (r - pos) = r := by omega
        rw [e] at h2
        exact h r h1 h2

theorem string_find_nonneg (s d : Str) (pos : Nat) (h : 0 ≤ string_find s d pos) :
    ∃ i : Nat, string_find s d pos = (i : Int) ∧ pos ≤ i ∧ d <+: s.drop i ∧
      ∀ j, pos ≤ j → j < i → ¬ d <+: s.drop j := by
  unfold string_find at h ⊢
  by_cases hl : s.length < pos
  · rw [if_pos hl] at h
    omega
  · rw [if_neg hl] at h ⊢
    cases hf : find_at d (s.drop pos) pos with
    | none =>
      rw [hf] at h
      simp at h
    | some r =>
      obtain ⟨h1, h2, h3⟩ := find_at_some d _ _ _ hf
      refine ⟨r, rfl, h1, ?_, ?_⟩
      · rw [List.drop_drop] at h2
        have e : pos + (r - pos) = r := by omega
        rwa [e] at h2
      · intro j hj1 hj2
        have := h3 (j - pos) (by omega)
        rw [List.drop_drop] at this
        have e : pos + (j - pos) = j := by omega
        rwa [e] at this

/-! ## Store calls without faults -/

theorem fault_code_nil {w : Rados} (h : w.faults = []) : w.fault_code = 0 := by
  unfold Rados.fault_code
  rw [h]
  rfl

theorem fault_pop_nil {w : Rados} (h : w.faults = []) : w.fault_pop = w := by
  cases w
  simp only [Rados.fault_pop] at *
  rw [h]
  rfl

theorem open_pool_ok {w : Rados} (hf : w.faults = []) {name : Str} {p : RadosPool}
    (hp : map_find w.pools name = some p) : w.open_pool name = (0, name, w) := by
  unfold Rados.open_pool
  rw [fault_code_nil hf, fault_pop_nil hf, hp]
  rfl

theorem get_object_pool {w : Rados} {pool : rados_pool_t} {oid : object_t} {o : RadosObject}
    (ho : w.get_object pool oid = some o) :
    ∃ p, map_find w.pools pool = some p ∧ map_find p.objects oid.name = some o := by
  unfold Rados.get_object at ho
  cases hp : map_find w.pools pool with
  | none => rw [hp] at ho; cases ho
  | some p => rw [hp] at ho; exact ⟨p, rfl, ho⟩

theorem stat_ok {w : Rados} (hf : w.faults = []) {pool : rados_pool_t} {oid : object_t}
    {o : RadosObject} (ho : w.get_object pool oid = some o) :
    w.stat pool oid = (0, o.data.length, o.mtime, w) := by
  unfold Rados.stat
  rw [fault_code_nil hf, fault_pop_nil hf, ho]
  rfl

theorem getxattrs_ok {w : Rados} (hf : w.faults = []) {pool : rados_pool_t} {oid : object_t}
    {o : RadosObject} (ho : w.get_object pool oid = some o) :
    w.getxattrs pool oid = (0, o.xattrs, w) := by
  unfold Rados.getxattrs
  rw [fault_code_nil hf, fault_pop_nil hf, ho]
  rfl

theorem getxattr_ok {w : Rados} (hf : w.faults = []) {pool : rados_pool_t} {oid : object_t}
    {o : RadosObject} (ho : w.get_object pool oid = some o) (name : Str) :
    w.getxattr pool oid name =
      match map_find o.xattrs name with
      | none => (-ENODATA, [], w)
      | some v => ((v.length : Int), v, w) := by
  unfold Rados.getxattr
  rw [fault_code_nil hf, fault_pop_nil hf, ho]
  rfl

theorem list_ok {w : Rados} (hf : w.faults = []) {pool : rados_pool_t} {p : RadosPool}
    (hp : map_find w.pools pool = some p) (max ctx : Nat) :
    w.list pool max ctx =
      ((if ctx + max < p.objects.length then 1 else 0),
        ((p.objects.drop ctx).take max).map (fun e => object_t.mk e.1),
        ctx + (((p.objects.drop ctx).take max).map (fun e => object_t.mk e.1)).length, w) := by
  unfold Rados.list
  rw [fault_code_nil hf, fault_pop_nil hf, hp]
  rfl

/-! ## The listing -/

theorem list_objects_entries_append (pfx : Str) (e1 e2 : List object_t)
    (dm : List (Str × object_t)) :
    list_objects_entries pfx (e1 ++ e2) dm =
      list_objects_entries pfx e2 (list_objects_entries pfx e1 dm) := by
  unfold list_objects_entries
  rw [List.foldl_append]

theorem list_objects_entries_cons (pfx : Str) (e : object_t) (es : List object_t)
    (dm : List (Str × object_t)) :
    list_objects_entries pfx (e :: es) dm =
      list_objects_entries pfx es
        (if pfx = [] ∨ e.name.take pfx.length = pfx then map_set dm e.name e else dm) := rfl

theorem prefix_cond_iff (pfx name : Str) :
    (pfx = [] ∨ name.take pfx.length = pfx) ↔ pfx <+: name := by
  constructor
  · rintro (h | h)
    · rw [h]; exact List.nil_prefix
    · exact List.prefix_iff_eq_take.mpr h.symm
  · intro h
    exact Or.inr (List.prefix_iff_eq_take.mp h).symm

theorem list_objects_entries_sorted (pfx : Str) (es : List object_t)
    (dm : List (Str × object_t)) (h : keys_sorted dm) :
    keys_sorted (list_objects_entries pfx es dm) := by
  induction es generalizing dm with
  | nil => exact h
  | cons e es ih =>
    rw [list_objects_entries_cons]
    apply ih
    split
    · exact map_set_sorted _ _ _ h
    · exact h

theorem list_objects_entries_keys (pfx : Str) (es : List object_t)
    (dm : List (Str × object_t)) (k : Str) :
    k ∈ (list_objects_entries pfx es dm).map Prod.fst ↔
      k ∈ dm.map Prod.fst ∨ (k ∈ es.map object_t.name ∧ pfx <+: k) := by
  induction es generalizing dm with
  | nil =>
    show k ∈ dm.map Prod.fst ↔ _
    simp only [List.map_nil, List.not_mem_nil, false_and, or_false]
  | cons e es ih =>
    rw [list_objects_entries_cons, ih]
    by_cases hc : pfx = [] ∨ e.name.take pfx.length = pfx
    · rw [if_pos hc, mem_keys_map_set, List.map_cons, List.mem_cons]
      have hp := (prefix_cond_iff pfx e.name).mp hc
      constructor
      · rintro ((h | h) | h)
        · exact Or.inr ⟨Or.inl h, h ▸ hp⟩
        · exact Or.inl h
        · exact Or.inr ⟨Or.inr h.1, h.2⟩
      · rintro (h | ⟨h | h, h2⟩)
        · exact Or.inl (Or.inr h)
        · exact Or.inl (Or.inl h)
        · exact Or.inr ⟨h, h2⟩
    · rw [if_neg hc, List.map_cons, List.mem_cons]
      have hp : ¬ pfx <+: e.name := fun h => hc ((prefix_cond_iff pfx e.name).mpr h)
      constructor
      · rintro (h | h)
        · exact Or.inl h
        · exact Or.inr ⟨Or.inr h.1, h.2⟩
      · rintro (h | ⟨h | h, h2⟩)
        · exact Or.inl h
        · exact absurd (h ▸ h2) hp
        · exact Or.inr ⟨h, h2⟩

theorem list_objects_entries_values (pfx : Str) (es : List object_t)
    (dm : List (Str × object_t)) (h : ∀ x ∈ dm, x.2 = ⟨x.1⟩) :
    ∀ x ∈ list_objects_entries pfx es dm, x.2 = ⟨x.1⟩ := by
  induction es generalizing dm with
  | nil => exact h
  | cons e es ih =>
    rw [list_objects_entries_cons]
    apply ih
    split
    · intro x hx
      rcases mem_map_set _ _ _ _ hx with hx | hx
      · rw [hx]
      · exact h x hx
    · exact h

theorem list_objects_drain_ok (pfx : Str) {pool : rados_pool_t} {p : RadosPool} {w : Rados}
    (hf : w.faults = []) (hp : map_find w.pools pool = some p) (fuel ctx : Nat)
    (dm : List (Str × object_t)) (hfuel : p.objects.length + 1 ≤ ctx + fuel) :
    list_objects_drain pfx pool fuel w ctx dm =
      (0, list_objects_entries pfx ((p.objects.drop ctx).map (fun e => object_t.mk e.1)) dm, w) := by
  induction fuel generalizing ctx dm with
  | zero =>
    rw [List.drop_of_length_le (by omega)]
    rfl
  | succ fuel ih =>
    unfold list_objects_drain
    rw [list_ok hf hp]
    by_cases hm : ctx + MAX_ENTRIES < p.objects.length
    · simp only [if_pos hm]
      have hlen : (((p.objects.drop ctx).take MAX_ENTRIES).map
          (fun e => object_t.mk e.1)).length = MAX_ENTRIES := by
        rw [List.length_map, List.length_take, List.length_drop]
        omega
      rw [hlen]
      have h1 : ¬ ((1 : Int) < 0) := by decide
      have h2 : (1 : Int) ≠ 0 := by decide
      rw [if_neg h1, if_pos h2, ih (ctx + MAX_ENTRIES) _ (by unfold MAX_ENTRIES at *; omega),
        ← list_objects_entries_append, ← List.map_append]
      have e : List.take MAX_ENTRIES (List.drop ctx p.objects) ++
          List.drop (ctx + MAX_ENTRIES) p.objects = List.drop ctx p.objects := by
        rw [← List.drop_drop, List.take_append_drop]
      rw [e]
    · simp only [if_neg hm]
      have h1 : ¬ ((0 : Int) < 0) := by decide
      have h2 : ¬ ((0 : Int) ≠ 0) := by decide
      rw [if_neg h1, if_neg h2, List.take_of_length_le (by rw [List.length_drop]; omega)]

theorem list_objects_entry_name (pool : rados_pool_t) (name : Str) (second : object_t)
    (w : Rados) (obj : RGWObjEnt) (h : (list_objects_entry pool name second w).1 = some obj) :
    obj.name = name := by
  unfold list_objects_entry at h
  by_cases hr : (w.stat pool second).1 < 0
  · simp only [hr, if_true] at h
    cases h
  · simp only [hr, if_false] at h
    cases h
    rfl

theorem list_objects_entry_ok {w : Rados} (hf : w.faults = []) {pool : rados_pool_t}
    (name : Str) {second : object_t} {o : RadosObject} (ho : w.get_object pool second = some o) :
    ∃ obj, list_objects_entry pool name second w = (some obj, w) ∧ obj.name = name := by
  unfold list_objects_entry
  rw [stat_ok hf ho]
  simp only [lt_self_iff_false, if_false]
  rw [getxattr_ok hf ho]
  cases map_find o.xattrs RGW_ATTR_ETAG with
  | none => exact ⟨_, rfl, rfl⟩
  | some v => exact ⟨_, rfl, rfl⟩

theorem list_objects_loop_nil (pool : rados_pool_t) (pfx delim : Str) (max i : Int)
    (result : List RGWObjEnt) (cp : List (Str × Bool)) (w : Rados) :
    list_objects_loop pool pfx delim max i [] result cp w = (result, cp, w) := by
  unfold list_objects_loop
  rfl

theorem list_objects_loop_cons (pool : rados_pool_t) (pfx delim : Str) (max i : Int)
    (first : Str) (second : object_t) (rest : List (Str × object_t))
    (result : List RGWObjEnt) (cp : List (Str × Bool)) (w : Rados) :
    list_objects_loop pool pfx delim max i ((first, second) :: rest) result cp w =
      if i < max then
        if list_objects_skip pfx delim first then
          list_objects_loop pool pfx delim max (i + 1) rest result
            (map_set cp (list_objects_common pfx delim first) true) w
        else
          match list_objects_entry pool first second w with
          | (none, w1) => list_objects_loop pool pfx delim max (i + 1) rest result cp w1
          | (some obj, w1) =>
            list_objects_loop pool pfx delim max (i + 1) rest (result ++ [obj]) cp w1
      else (result, cp, w) := by
  rw [list_objects_loop]

theorem consumed_nil (max i : Int) : consumed max i [] = [] := by
  unfold consumed
  rw [List.take_nil]
  rfl

theorem consumed_cons_lt (max i : Int) (h : i < max) (e : Str × object_t)
    (rest : List (Str × object_t)) :
    consumed max i (e :: rest) = e.1 :: consumed max (i + 1) rest := by
  unfold consumed
  have : (max - i).toNat = (max - (i + 1)).toNat + 1 := by omega
  rw [this, List.take_succ_cons, List.map_cons]

theorem consumed_not_lt (max i : Int) (h : ¬ i < max) (rest : List (Str × object_t)) :
    consumed max i rest = [] := by
  unfold consumed
  have : (max - i).toNat = 0 := by omega
  rw [this, List.take_zero]
  rfl

theorem list_objects_loop_spec (pool : rados_pool_t) (pfx delim : Str) (max : Int)
    (rest : List (Str × object_t)) :
    ∀ (i : Int) (result : List RGWObjEnt) (cp : List (Str × Bool)) (w : Rados),
      ∃ new : List RGWObjEnt,
        (list_objects_loop pool pfx delim max i rest result cp w).1 = result ++ new ∧
        (new.map RGWObjEnt.name).Sublist
          ((consumed max i rest).filter (fun k => !list_objects_skip pfx delim k)) ∧
        (list_objects_loop pool pfx delim max i rest result cp w).2.1 =
          ((consumed max i rest).filter (list_objects_skip pfx delim)).foldl
            (fun m k => map_set m (list_objects_common pfx delim k) true) cp := by
  induction rest with
  | nil =>
    intro i result cp w
    rw [list_objects_loop_nil, consumed_nil]
    exact ⟨[], (List.append_nil _).symm, List.Sublist.slnil, rfl⟩
  | cons e rest ih =>
    obtain ⟨first, second⟩ := e
    intro i result cp w
    rw [list_objects_loop_cons]
    by_cases hi : i < max
    · rw [if_pos hi, consumed_cons_lt max i hi]
      by_cases hs : list_objects_skip pfx delim first = true
      · rw [if_pos hs]
        obtain ⟨new, h1, h2, h3⟩ := ih (i + 1) result
          (map_set cp (list_objects_common pfx delim first) true) w
        refine ⟨new, h1, ?_, ?_⟩
        · rw [List.filter_cons_of_neg (by simp [hs])]
          exact h2
        · rw [List.filter_cons_of_pos hs, List.foldl_cons]
          exact h3
      · rw [if_neg hs]
        have hs' : list_objects_skip pfx delim first = false := by simpa using hs
        cases hent : list_objects_entry pool first second w with
        | mk oe w1 =>
          cases oe with
          | none =>
            obtain ⟨new, h1, h2, h3⟩ := ih (i + 1) result cp w1
            refine ⟨new, h1, ?_, ?_⟩
            · rw [List.filter_cons_of_pos (by simp [hs'])]
              exact List.Sublist.cons _ h2
            · rw [List.filter_cons_of_neg hs]
              exact h3
          | some obj =>
            obtain ⟨new, h1, h2, h3⟩ := ih (i + 1) (result ++ [obj]) cp w1
            have hn : obj.name = first :=
              list_objects_entry_name pool first second w obj (by rw [hent])
            refine ⟨obj :: new, ?_, ?_, ?_⟩
            · show (list_objects_loop pool pfx delim max (i + 1) rest (result ++ [obj]) cp w1).1 = _
              rw [h1, List.append_assoc]
              rfl
            · rw [List.filter_cons_of_pos (by simp [hs']), List.map_cons, hn]
              exact List.Sublist.cons₂ _ h2
            · rw [List.filter_cons_of_neg hs]
              exact h3
    · rw [if_neg hi, consumed_not_lt max i hi]
      exact ⟨[], (List.append_nil _).symm, List.Sublist.slnil, rfl⟩

theorem list_objects_loop_ok (pool : rados_pool_t) (pfx delim : Str) (max : Int)
    {w : Rados} (hf : w.faults = []) (rest : List (Str × object_t))
    (hrest : ∀ e ∈ rest, ∃ o, w.get_object pool e.2 = some o) :
    ∀ (i : Int) (result : List RGWObjEnt) (cp : List (Str × Bool)),
      ((list_objects_loop pool pfx delim max i rest result cp w).1).map RGWObjEnt.name =
          result.map RGWObjEnt.name ++
            (consumed max i rest).filter (fun k => !list_objects_skip pfx delim k) ∧
        (list_objects_loop pool pfx delim max i rest result cp w).2.2 = w := by
  induction rest with
  | nil =>
    intro i result cp
    rw [list_objects_loop_nil, consumed_nil]
    exact ⟨(List.append_nil _).symm, rfl⟩
  | cons e rest ih =>
    obtain ⟨first, second⟩ := e
    intro i result cp
    have ih' := ih (fun e he => hrest e (List.mem_cons_of_mem _ he))
    rw [list_objects_loop_cons]
    by_cases hi : i < max
    · rw [if_pos hi, consumed_cons_lt max i hi]
      by_cases hs : list_objects_skip pfx delim first = true
      · rw [if_pos hs, List.filter_cons_of_neg (by simp [hs])]
        exact ih' (i + 1) result _
      · rw [if_neg hs]
        have hs' : list_objects_skip pfx delim first = false := by simpa using hs
        obtain ⟨o, ho⟩ := hrest (first, second) (List.mem_cons_self _ _)
        obtain ⟨obj, hent, hn⟩ := list_objects_entry_ok hf first ho
        rw [hent, List.filter_cons_of_pos (by simp [hs'])]
        obtain ⟨h1, h2⟩ := ih' (i + 1) (result ++ [obj]) cp
        refine ⟨?_, h2⟩
        show ((list_objects_loop pool pfx delim max (i + 1) rest (result ++ [obj]) cp w).1).map
          RGWObjEnt.name = _
        rw [h1, List.map_append, List.append_assoc, List.map_cons, hn]
        rfl
    · rw [if_neg hi, consumed_not_lt max i hi]
      exact ⟨(List.append_nil _).symm, rfl⟩

theorem list_objects_drain_sorted (pfx : Str) (pool : rados_pool_t) (fuel : Nat) :
    ∀ (w : Rados) (ctx : Nat) (dm : List (Str × object_t)), keys_sorted dm →
      keys_sorted (list_objects_drain pfx pool fuel w ctx dm).2.1 := by
  induction fuel with
  | zero =>
    intro w ctx dm h
    exact h
  | succ fuel ih =>
    intro w ctx dm h
    unfold list_objects_drain
    cases hl : w.list pool MAX_ENTRIES ctx with
    | mk r x =>
      obtain ⟨entries, ctx1, w1⟩ := x
      simp only []
      by_cases h1 : r < 0
      · rw [if_pos h1]
        exact h
      · rw [if_neg h1]
        by_cases h2 : r ≠ 0
        · rw [if_pos h2]
          exact ih _ _ _ (list_objects_entries_sorted _ _ _ h)
        · rw [if_neg h2]
          exact list_objects_entries_sorted _ _ _ h

theorem common_prefixes_find (f : Str → Str) (ks : List Str) (cp : List (Str × Bool))
    (c : Str) :
    (c ∈ ks.map f → map_find (ks.foldl (fun m k => map_set m (f k) true) cp) c = some true) ∧
    (c ∉ ks.map f → map_find (ks.foldl (fun m k => map_set m (f k) true) cp) c = map_find cp c) := by
  induction ks generalizing cp with
  | nil =>
    constructor
    · intro h; cases h
    · intro _; rfl
  | cons k ks ih =>
    rw [List.foldl_cons, List.map_cons]
    obtain ⟨ih1, ih2⟩ := ih (map_set cp (f k) true)
    constructor
    · intro h
      by_cases hc : c ∈ ks.map f
      · exact ih1 hc
      · rw [ih2 hc, map_find_map_set]
        rcases List.mem_cons.mp h with h | h
        · rw [if_pos h.symm]
        · exact absurd h hc
    · intro h
      have h1 : c ≠ f k := fun e => h (e ▸ List.mem_cons_self _ _)
      have h2 : c ∉ ks.map f := fun e => h (List.mem_cons_of_mem _ e)
      rw [ih2 h2, map_find_map_set, if_neg (fun e => h1 e.symm)]

theorem list_objects_skip_iff (pfx delim k : Str) (hd : delim ≠ []) :
    list_objects_skip pfx delim k = true ↔ ∃ i, pfx.length ≤ i ∧ delim <+: k.drop i := by
  unfold list_objects_skip
  rw [decide_eq_true_iff]
  constructor
  · rintro ⟨_, h⟩
    by_contra hn
    have := (string_find_neg k delim hd pfx.length).mpr
      (fun i hi hp => hn ⟨i, hi, hp⟩)
    omega
  · rintro ⟨i, hi, hp⟩
    refine ⟨hd, ?_⟩
    by_contra hn
    exact (string_find_neg k delim hd pfx.length).mp (by omega) i hi hp

/-- The key marked in `common_prefixes` for a skipped key is the key cut just behind
the first character of the first occurrence of the delimiter at or behind the prefix. -/
theorem list_objects_common_eq (pfx delim k : Str)
    (h : list_objects_skip pfx delim k = true) :
    ∃ i, pfx.length ≤ i ∧ delim <+: k.drop i ∧ (∀ j, pfx.length ≤ j → j < i → ¬ delim <+: k.drop j) ∧
      list_objects_common pfx delim k = k.take (i + 1) := by
  unfold list_objects_skip at h
  rw [decide_eq_true_iff] at h
  obtain ⟨i, h1, h2, h3, h4⟩ := string_find_nonneg k delim pfx.length h.2
  refine ⟨i, h2, h3, h4, ?_⟩
  unfold list_objects_common substr0
  rw [h1]
  rfl

theorem sorted_nodup (l : List Str) (h : l.Pairwise (fun a b => str_lt a b = true)) :
    l.Nodup :=
  List.Pairwise.imp (fun {a b} hab => str_lt_ne a b hab) h

theorem consumed_sublist (max i : Int) (rest : List (Str × object_t)) :
    (consumed max i rest).Sublist (rest.map Prod.fst) := by
  unfold consumed
  exact List.Sublist.map _ (List.take_sublist _ _)

theorem lower_bound_sublist {β : Type} (m : List (Str × β)) (k : Str) :
    (lower_bound m k).Sublist m := by
  unfold lower_bound
  exact List.dropWhile_sublist _

theorem fault_pop_pools (w : Rados) : w.fault_pop.pools = w.pools := rfl

theorem open_pool_spec (w : Rados) (name : Str) (h : ¬ (w.open_pool name).1 < 0) :
    ∃ p, map_find w.pools name = some p ∧ w.open_pool name = (0, name, w.fault_pop) := by
  unfold Rados.open_pool at h ⊢
  by_cases hf : w.fault_code < 0
  · rw [if_pos hf] at h
    exact absurd hf h
  · rw [if_neg hf] at h ⊢
    cases hp : map_find w.pools name with
    | none =>
      rw [hp] at h
      exfalso
      apply h
      show -ENOENT < 0
      decide
    | some p => exact ⟨p, rfl, rfl⟩

theorem list_spec (w : Rados) (pool : rados_pool_t) (max ctx : Nat)
    (h : ¬ (w.list pool max ctx).1 < 0) :
    ∃ p, map_find w.pools pool = some p ∧
      w.list pool max ctx =
        ((if ctx + max < p.objects.length then 1 else 0),
          ((p.objects.drop ctx).take max).map (fun e => object_t.mk e.1),
          ctx + (((p.objects.drop ctx).take max).map (fun e => object_t.mk e.1)).length,
          w.fault_pop) := by
  unfold Rados.list at h ⊢
  by_cases hf : w.fault_code < 0
  · rw [if_pos hf] at h
    exact absurd hf h
  · rw [if_neg hf] at h ⊢
    cases hp : map_find w.pools pool with
    | none =>
      rw [hp] at h
      exfalso
      apply h
      show -ENOENT < 0
      decide
    | some p => exact ⟨p, rfl, rfl⟩

/-- When the drain loop of `list_objects` does not fail, it has collected every object
of the pool (from position `ctx` on) whose name starts with the prefix. -/
theorem list_objects_drain_spec (pfx : Str) (pool : rados_pool_t) (p : RadosPool)
    (fuel : Nat) :
    ∀ (w : Rados) (ctx : Nat) (dm : List (Str × object_t)),
      map_find w.pools pool = some p → p.objects.length + 1 ≤ ctx + fuel →
      ¬ (list_objects_drain pfx pool fuel w ctx dm).1 < 0 →
      (list_objects_drain pfx pool fuel w ctx dm).1 = 0 ∧
      (list_objects_drain pfx pool fuel w ctx dm).2.1 =
        list_objects_entries pfx ((p.objects.drop ctx).map (fun e => object_t.mk e.1)) dm := by
  induction fuel with
  | zero =>
    intro w ctx dm _ hfuel _
    rw [List.drop_of_length_le (by omega)]
    exact ⟨rfl, rfl⟩
  | succ fuel ih =>
    intro w ctx dm hp hfuel hr
    unfold list_objects_drain at hr ⊢
    by_cases hl : (w.list pool MAX_ENTRIES ctx).1 < 0
    · exfalso
      apply hr
      cases hx : w.list pool MAX_ENTRIES ctx with
      | mk r x =>
        rw [hx] at hl
        simp only [] at hl ⊢
        rw [if_pos hl]
        exact hl
    · obtain ⟨p', hp', hx⟩ := list_spec w pool MAX_ENTRIES ctx hl
      rw [hp] at hp'
      cases hp'
      rw [hx] at hr ⊢
      simp only [] at hr ⊢
      by_cases hm : ctx + MAX_ENTRIES < p.objects.length
      · have hlen : (((p.objects.drop ctx).take MAX_ENTRIES).map
            (fun e => object_t.mk e.1)).length = MAX_ENTRIES := by
          rw [List.length_map, List.length_take, List.length_drop]
          omega
        have h1 : ¬ ((1 : Int) < 0) := by decide
        have h2 : (1 : Int) ≠ 0 := by decide
        rw [if_pos hm, if_neg h1, if_pos h2, hlen] at hr ⊢
        have := ih w.fault_pop (ctx + MAX_ENTRIES) _ hp
          (by unfold MAX_ENTRIES at *; omega) hr
        rw [this.1, this.2, ← list_objects_entries_append, ← List.map_append]
        have e : List.take MAX_ENTRIES (List.drop ctx p.objects) ++
            List.drop (ctx + MAX_ENTRIES) p.objects = List.drop ctx p.objects := by
          rw [← List.drop_drop, List.take_append_drop]
        rw [e]
        exact ⟨rfl, rfl⟩
      · have h1 : ¬ ((0 : Int) < 0) := by decide
        have h2 : ¬ ((0 : Int) ≠ 0) := by decide
        rw [if_neg hm, if_neg h1, if_neg h2,
          List.take_of_length_le (by rw [List.length_drop]; omega)]
        exact ⟨rfl, rfl⟩

theorem str_lt_nil (k : Str) : str_lt k [] = false := by
  cases k <;> rfl

theorem dropWhile_eq_filter (marker : Str) (S : List Str)
    (hs : S.Pairwise (fun a b => str_lt a b = true)) :
    S.dropWhile (fun k => str_lt k marker) = S.filter (fun k => !str_lt k marker) := by
  induction S with
  | nil => rfl
  | cons a S ih =>
    rw [List.pairwise_cons] at hs
    by_cases ha : str_lt a marker = true
    · simp only [List.dropWhile_cons, ha, if_true]
      rw [List.filter_cons_of_neg (by simp [ha])]
      exact ih hs.2
    · have ha' : str_lt a marker = false := by simpa using ha
      simp only [List.dropWhile_cons, ha']
      rw [List.filter_cons_of_pos (by simp [ha'])]
      simp only [Bool.false_eq_true, if_false]
      congr 1
      symm
      rw [List.filter_eq_self]
      intro x hx
      have hax := hs.1 x hx
      by_contra hc
      have hxm : str_lt x marker = true := by simpa using hc
      rw [str_lt_trans a x marker hax hxm] at ha'
      exact Bool.noConfusion ha'

theorem lower_bound_keys {β : Type} (m : List (Str × β)) (k : Str) :
    (lower_bound m k).map Prod.fst = (m.map Prod.fst).dropWhile (fun x => str_lt x k) := by
  unfold lower_bound
  induction m with
  | nil => rfl
  | cons e m ih =>
    by_cases h : str_lt e.1 k = true
    · simp only [List.dropWhile_cons, List.map_cons, h, if_true]
      exact ih
    · simp only [List.dropWhile_cons, List.map_cons, h, Bool.false_eq_true, if_false]

/-- The keys that `list_objects` consumes: of the sorted keys of `dir_map`, those not
less than the marker, cut after `max` keys when `max` is not negative. -/
theorem consumed_eq (dm : List (Str × object_t)) (hs : keys_sorted dm) (marker : Str)
    (max : Int) :
    consumed (if max < 0 then (dm.length : Int) else max) 0
        (if marker ≠ [] then lower_bound dm marker else dm) =
      ((dm.map Prod.fst).filter (fun k => !str_lt k marker)).take
        (if max < 0 then dm.length else max.toNat) := by
  unfold consumed
  have e1 : ((if max < 0 then (dm.length : Int) else max) - 0).toNat =
      if max < 0 then dm.length else max.toNat := by
    split <;> simp
  have e2 : (if marker ≠ [] then lower_bound dm marker else dm).map Prod.fst =
      (dm.map Prod.fst).filter (fun k => !str_lt k marker) := by
    rw [← dropWhile_eq_filter marker _ hs, ← lower_bound_keys]
    by_cases hm : marker = []
    · rw [if_neg (not_not.mpr hm), hm, lower_bound_keys]
      cases h : dm.map Prod.fst with
      | nil => rfl
      | cons a l =>
        simp only [List.dropWhile_cons, str_lt_nil, Bool.false_eq_true, if_false]
    · rw [if_pos hm]
  rw [e1, List.map_take, e2]

theorem dir_keys_sorted (pfx : Str) (p : RadosPool) :
    (dir_keys pfx p).Pairwise (fun a b => str_lt a b = true) :=
  list_objects_entries_sorted pfx _ [] List.Pairwise.nil

theorem mem_dir_keys (pfx : Str) (p : RadosPool) (k : Str) :
    k ∈ dir_keys pfx p ↔ k ∈ p.objects.map Prod.fst ∧ pfx <+: k := by
  unfold dir_keys
  rw [list_objects_entries_keys, List.map_map]
  constructor
  · rintro (h | h)
    · cases h
    · exact h
  · intro h
    exact Or.inr h

/-- What a call of `list_objects` that does not fail returns, for any fault schedule:
the literal results are consumed keys that are not skipped, in their order, and
`common_prefixes` gets the keys of the skipped ones. -/
theorem list_objects_spec (w : Rados) (id bucket : Str) (max : Int)
    (pfx delim marker : Str) (result : List RGWObjEnt) (cp : List (Str × Bool)) :
    ((list_objects w id bucket max pfx delim marker result cp).1 < 0 ∧
      (list_objects w id bucket max pfx delim marker result cp).2.1 = result ∧
      (list_objects w id bucket max pfx delim marker result cp).2.2.1 = cp) ∨
    ((list_objects w id bucket max pfx delim marker result cp).1 = 0 ∧
      ∃ p, map_find w.pools bucket = some p ∧
        (((list_objects w id bucket max pfx delim marker result cp).2.1).map
            RGWObjEnt.name).Sublist
          ((window (dir_keys pfx p) marker max).filter
            (fun k => !list_objects_skip pfx delim k)) ∧
        (list_objects w id bucket max pfx delim marker result cp).2.2.1 =
          ((window (dir_keys pfx p) marker max).filter (list_objects_skip pfx delim)).foldl
            (fun m k => map_set m (list_objects_common pfx delim k) true) cp) := by
  unfold list_objects
  by_cases hr1 : (w.open_pool bucket).1 < 0
  · left
    cases h1 : w.open_pool bucket with
    | mk r1 x1 =>
      rw [h1] at hr1
      simp only [] at hr1 ⊢
      rw [if_pos hr1]
      exact ⟨hr1, rfl, rfl⟩
  · obtain ⟨p, hp, h1⟩ := open_pool_spec w bucket hr1
    rw [h1]
    simp only [lt_self_iff_false, if_false]
    have hp' : map_find w.fault_pop.pools bucket = some p := hp
    have hsz : w.fault_pop.pool_size bucket = p.objects.length := by
      unfold Rados.pool_size
      rw [hp']
    by_cases hr2 : (list_objects_drain pfx bucket (w.fault_pop.pool_size bucket + 1)
        w.fault_pop 0 []).1 < 0
    · left
      cases h2 : list_objects_drain pfx bucket (w.fault_pop.pool_size bucket + 1)
          w.fault_pop 0 [] with
      | mk r2 x2 =>
        rw [h2] at hr2
        simp only [] at hr2 ⊢
        rw [if_pos hr2]
        exact ⟨hr2, rfl, rfl⟩
    · right
      obtain ⟨d1, d2⟩ := list_objects_drain_spec pfx bucket p _ w.fault_pop 0 [] hp'
        (by rw [hsz]; omega) hr2
      rw [List.drop_zero] at d2
      cases h2 : list_objects_drain pfx bucket (w.fault_pop.pool_size bucket + 1)
          w.fault_pop 0 [] with
      | mk r2 x2 =>
        obtain ⟨dm, w2⟩ := x2
        rw [h2] at d1 d2
        simp only [] at d1 d2 ⊢
        rw [d1]
        simp only [lt_self_iff_false, if_false]
        have hs : keys_sorted dm := by
          rw [d2]
          exact dir_keys_sorted pfx p
        have hk : dm.map Prod.fst = dir_keys pfx p := by
          rw [d2]
          rfl
        have hc := consumed_eq dm hs marker max
        rw [hk] at hc
        have hl : dm.length = (dir_keys pfx p).length := by
          rw [← hk, List.length_map]
        rw [hl] at hc
        obtain ⟨new, e1, e2, e3⟩ := list_objects_loop_spec bucket pfx delim
          (if max < 0 then ((dir_keys pfx p).length : Int) else max)
          (if marker ≠ [] then lower_bound dm marker else dm) 0 [] cp w2
        rw [hc] at e2 e3
        rw [hl]
        refine ⟨trivial, p, hp, ?_, ?_⟩
        · show ((list_objects_loop bucket pfx delim _ 0 _ [] cp w2).1).map RGWObjEnt.name
            |>.Sublist _
          rw [e1]
          exact e2
        · exact e3

/-- What `list_objects` returns when no store call fails: the literal results are
exactly the consumed keys that are not skipped. -/
theorem list_objects_ok (w : Rados) (id bucket : Str) (max : Int)
    (pfx delim marker : Str) (result : List RGWObjEnt) (cp : List (Str × Bool))
    (p : RadosPool) (hf : w.faults = []) (hp : map_find w.pools bucket = some p) :
    (list_objects w id bucket max pfx delim marker result cp).1 = 0 ∧
    ((list_objects w id bucket max pfx delim marker result cp).2.1).map RGWObjEnt.name =
      (window (dir_keys pfx p) marker max).filter (fun k => !list_objects_skip pfx delim k) ∧
    (list_objects w id bucket max pfx delim marker result cp).2.2.1 =
      ((window (dir_keys pfx p) marker max).filter (list_objects_skip pfx delim)).foldl
        (fun m k => map_set m (list_objects_common pfx delim k) true) cp := by
  unfold list_objects
  rw [open_pool_ok hf hp]
  simp only [lt_self_iff_false, if_false]
  have hsz : w.pool_size bucket = p.objects.length := by
    unfold Rados.pool_size
    rw [hp]
  rw [list_objects_drain_ok pfx hf hp _ 0 [] (by rw [hsz]; omega), List.drop_zero]
  simp only [lt_self_iff_false, if_false]
  generalize hdm : list_objects_entries pfx (p.objects.map (fun e => object_t.mk e.1)) [] = dm
  have hk : dm.map Prod.fst = dir_keys pfx p := by
    rw [← hdm]
    rfl
  have hs : keys_sorted dm := by
    unfold keys_sorted
    rw [hk]
    exact dir_keys_sorted pfx p
  have hv : ∀ x ∈ dm, x.2 = ⟨x.1⟩ := by
    rw [← hdm]
    exact list_objects_entries_values pfx _ [] (fun x hx => by cases hx)
  have hc := consumed_eq dm hs marker max
  rw [hk] at hc
  have hl : dm.length = (dir_keys pfx p).length := by
    rw [← hk, List.length_map]
  rw [hl] at hc ⊢
  have hsub : (if marker ≠ [] then lower_bound dm marker else dm).Sublist dm := by
    split
    · exact lower_bound_sublist _ _
    · exact List.Sublist.refl _
  have hrest : ∀ e ∈ (if marker ≠ [] then lower_bound dm marker else dm),
      ∃ o, w.get_object bucket e.2 = some o := by
    intro e he
    have hed := hsub.subset he
    have h1 : e.1 ∈ dir_keys pfx p := by
      rw [← hk]
      exact List.mem_map_of_mem _ hed
    obtain ⟨o, ho⟩ := map_find_isSome_of_mem p.objects e.1 ((mem_dir_keys pfx p e.1).mp h1).1
    refine ⟨o, ?_⟩
    unfold Rados.get_object
    rw [hp, hv e hed]
    exact ho
  obtain ⟨a1, a2⟩ := list_objects_loop_ok bucket pfx delim
    (if max < 0 then ((dir_keys pfx p).length : Int) else max) hf _ hrest 0 [] cp
  obtain ⟨new, e1, _, e3⟩ := list_objects_loop_spec bucket pfx delim
    (if max < 0 then ((dir_keys pfx p).length : Int) else max)
    (if marker ≠ [] then lower_bound dm marker else dm) 0 [] cp w
  rw [hc] at a1 e3
  refine ⟨trivial, ?_, e3⟩
  rw [List.map_nil, List.nil_append] at a1
  exact a1

/-- C4 (listing partition): for a non-empty delimiter, whatever the faults of the
store, a call of `list_objects` either fails and leaves `result` and `common_prefixes`
as they were, or returns 0 and then, `p` being the pool of the bucket and the consumed
keys being `window (dir_keys pfx p) marker max`: the names in `result` are distinct;
every entry of `result` is a consumed key in which the delimiter occurs at no index
at or behind the length of the prefix; every consumed key in which it does occur there
is not in `result` and has its key `list_objects_common` marked true in
`common_prefixes`; and `common_prefixes` gets no other entry.  So a key is reported
as a literal result or through `common_prefixes`, never both. -/
theorem list_objects_partition (w : Rados) (id bucket : Str) (max : Int)
    (pfx delim marker : Str) (result : List RGWObjEnt) (cp : List (Str × Bool))
    (hd : delim ≠ []) :
    ((list_objects w id bucket max pfx delim marker result cp).1 < 0 ∧
      (list_objects w id bucket max pfx delim marker result cp).2.1 = result ∧
      (list_objects w id bucket max pfx delim marker result cp).2.2.1 = cp) ∨
    ((list_objects w id bucket max pfx delim marker result cp).1 = 0 ∧
      ∃ p, map_find w.pools bucket = some p ∧
        (((list_objects w id bucket max pfx delim marker result cp).2.1).map
          RGWObjEnt.name).Nodup ∧
        (∀ e ∈ (list_objects w id bucket max pfx delim marker result cp).2.1,
          e.name ∈ window (dir_keys pfx p) marker max ∧
          ∀ i, pfx.length ≤ i → ¬ delim <+: e.name.drop i) ∧
        (∀ k ∈ window (dir_keys pfx p) marker max,
          (∃ i, pfx.length ≤ i ∧ delim <+: k.drop i) →
          k ∉ ((list_objects w id bucket max pfx delim marker result cp).2.1).map
            RGWObjEnt.name ∧
          map_find (list_objects w id bucket max pfx delim marker result cp).2.2.1
            (list_objects_common pfx delim k) = some true) ∧
        (∀ c, (∀ k ∈ window (dir_keys pfx p) marker max,
            (∃ i, pfx.length ≤ i ∧ delim <+: k.drop i) →
            list_objects_common pfx delim k ≠ c) →
          map_find (list_objects w id bucket max pfx delim marker result cp).2.2.1 c =
            map_find cp c)) := by
  rcases list_objects_spec w id bucket max pfx delim marker result cp with h | h
  · exact Or.inl h
  · right
    obtain ⟨h0, p, hp, e2, o2⟩ := h
    have hkeys : (window (dir_keys pfx p) marker max).Pairwise
        (fun a b => str_lt a b = true) :=
      List.Pairwise.sublist ((List.take_sublist _ _).trans (List.filter_sublist _))
        (dir_keys_sorted pfx p)
    refine ⟨h0, p, hp, ?_, ?_, ?_, ?_⟩
    · exact List.Nodup.sublist (e2.trans (List.filter_sublist _)) (sorted_nodup _ hkeys)
    · intro e he
      have hm := e2.subset (List.mem_map_of_mem RGWObjEnt.name he)
      rw [List.mem_filter] at hm
      refine ⟨hm.1, ?_⟩
      intro i hi hpre
      have := (list_objects_skip_iff pfx delim e.name hd).mpr ⟨i, hi, hpre⟩
      rw [this] at hm
      exact Bool.noConfusion hm.2
    · intro k hk hocc
      have hsk := (list_objects_skip_iff pfx delim k hd).mpr hocc
      constructor
      · intro hmem
        have hm := e2.subset hmem
        rw [List.mem_filter, hsk] at hm
        exact Bool.noConfusion hm.2
      · rw [o2]
        apply (common_prefixes_find _ _ cp _).1
        exact List.mem_map_of_mem _ (List.mem_filter.mpr ⟨hk, hsk⟩)
    · intro c hc
      rw [o2]
      apply (common_prefixes_find _ _ cp _).2
      intro hmem
      obtain ⟨k, hk1, hk2⟩ := List.mem_map.mp hmem
      rw [List.mem_filter] at hk1
      exact hc k hk1.1 ((list_objects_skip_iff pfx delim k hd).mp hk1.2) hk2

theorem sorted_head_of_lower (l : List Str) (m : Str)
    (hs : l.Pairwise (fun a b => str_lt a b = true)) (hm : m ∈ l)
    (hl : ∀ x ∈ l, str_lt x m = false) : l.head? = some m := by
  cases l with
  | nil => cases hm
  | cons h t =>
    rw [List.pairwise_cons] at hs
    rcases List.mem_cons.mp hm with e | e
    · rw [e]
      rfl
    · have h1 := hs.1 m e
      rw [hl h (List.mem_cons_self _ _)] at h1
      exact Bool.noConfusion h1

/-- C5 (listing window): when no store call fails and the bucket has the pool `p`,
there are the strictly ascending sequence `S` of the names of `p` that start with the
prefix, its suffix `suffix` of the names not less than the marker (all of `S` for an
empty marker) and the consumed keys `taken`, the first `max` keys of `suffix` when
`max >= 0` and all of them when `max < 0`, such that `list_objects` returns 0, the
names in `result` are the keys of `taken` that are not skipped, in order, and
`common_prefixes` gets the keys of the skipped ones.  Consequently no name in `result`
is less than the marker, a name equal to the marker is the first key consumed, the
literal results and the skipped keys together are the consumed keys, and these are at
most `max` when `max >= 0`. -/
theorem list_objects_window (w : Rados) (id bucket : Str) (max : Int)
    (pfx delim marker : Str) (result : List RGWObjEnt) (cp : List (Str × Bool))
    (p : RadosPool) (hf : w.faults = []) (hp : map_find w.pools bucket = some p) :
    ∃ S suffix taken : List Str,
      S.Pairwise (fun a b => str_lt a b = true) ∧
      (∀ k, k ∈ S ↔ k ∈ p.objects.map Prod.fst ∧ pfx <+: k) ∧
      suffix <:+ S ∧
      (∀ k, k ∈ suffix ↔ k ∈ S ∧ str_lt k marker = false) ∧
      (marker = [] → suffix = S) ∧
      taken = (if max < 0 then suffix else suffix.take max.toNat) ∧
      (list_objects w id bucket max pfx delim marker result cp).1 = 0 ∧
      ((list_objects w id bucket max pfx delim marker result cp).2.1).map RGWObjEnt.name =
        taken.filter (fun k => !list_objects_skip pfx delim k) ∧
      (list_objects w id bucket max pfx delim marker result cp).2.2.1 =
        (taken.filter (list_objects_skip pfx delim)).foldl
          (fun m k => map_set m (list_objects_common pfx delim k) true) cp ∧
      (∀ e ∈ (list_objects w id bucket max pfx delim marker result cp).2.1,
        str_lt e.name marker = false) ∧
      (marker ∈ S → max ≠ 0 → taken.head? = some marker) ∧
      ((list_objects w id bucket max pfx delim marker result cp).2.1).length +
        (taken.filter (list_objects_skip pfx delim)).length = taken.length ∧
      (0 ≤ max → taken.length ≤ max.toNat) := by
  obtain ⟨h0, h1, h2⟩ := list_objects_ok w id bucket max pfx delim marker result cp p hf hp
  have hS := dir_keys_sorted pfx p
  have hsuf : (dir_keys pfx p).filter (fun k => !str_lt k marker) <:+ dir_keys pfx p := by
    rw [← dropWhile_eq_filter marker _ hS]
    exact List.dropWhile_suffix _
  have hmem : ∀ k, k ∈ (dir_keys pfx p).filter (fun k => !str_lt k marker) ↔
      k ∈ dir_keys pfx p ∧ str_lt k marker = false := by
    intro k
    rw [List.mem_filter]
    simp only [Bool.not_eq_true']
  have hw : window (dir_keys pfx p) marker max =
      if max < 0 then (dir_keys pfx p).filter (fun k => !str_lt k marker)
      else ((dir_keys pfx p).filter (fun k => !str_lt k marker)).take max.toNat := by
    unfold window
    by_cases hm : max < 0
    · rw [if_pos hm, if_pos hm]
      exact List.take_of_length_le (List.length_filter_le _ _)
    · rw [if_neg hm, if_neg hm]
  rw [hw] at h1 h2
  refine ⟨dir_keys pfx p, (dir_keys pfx p).filter (fun k => !str_lt k marker), _,
    hS, mem_dir_keys pfx p, hsuf, hmem, ?_, rfl, h0, h1, h2, ?_, ?_, ?_, ?_⟩
  · intro hm
    rw [hm, List.filter_eq_self]
    intro x _
    rw [str_lt_nil]
    rfl
  · intro e he
    have := List.mem_map_of_mem RGWObjEnt.name he
    rw [h1, List.mem_filter] at this
    have h3 : e.name ∈ (dir_keys pfx p).filter (fun k => !str_lt k marker) := by
      have h4 := this.1
      split at h4
      · exact h4
      · exact List.mem_of_mem_take h4
    exact ((hmem _).mp h3).2
  · intro hm hmax
    have hh : ((dir_keys pfx p).filter (fun k => !str_lt k marker)).head? = some marker := by
      apply sorted_head_of_lower
      · exact List.Pairwise.sublist (List.filter_sublist _) hS
      · exact (hmem marker).mpr ⟨hm, str_lt_irrefl marker⟩
      · intro x hx
        exact ((hmem x).mp hx).2
    by_cases hneg : max < 0
    · rw [if_pos hneg]
      exact hh
    · rw [if_neg hneg]
      cases hl : (dir_keys pfx p).filter (fun k => !str_lt k marker) with
      | nil =>
        rw [hl] at hh
        cases hh
      | cons a t =>
        rw [hl] at hh
        have : max.toNat = (max.toNat - 1) + 1 := by omega
        rw [this, List.take_succ_cons]
        exact hh
  · have hlen := congrArg List.length h1
    rw [List.length_map] at hlen
    rw [hlen]
    generalize (if max < 0 then (dir_keys pfx p).filter (fun k => !str_lt k marker)
      else ((dir_keys pfx p).filter (fun k => !str_lt k marker)).take max.toNat) = l
    induction l with
    | nil => rfl
    | cons a l ih =>
      by_cases ha : list_objects_skip pfx delim a = true
      · rw [List.filter_cons_of_neg (by simp [ha]), List.filter_cons_of_pos ha,
          List.length_cons, List.length_cons]
        omega
      · have ha' : list_objects_skip pfx delim a = false := by simpa using ha
        rw [List.filter_cons_of_pos (by simp [ha']), List.filter_cons_of_neg ha,
          List.length_cons, List.length_cons]
        omega
  · intro hmax
    rw [if_neg (by omega), List.length_take]
    exact Nat.min_le_left _ _

theorem strcmp_eq_zero (a b : Str) : strcmp a b = 0 ↔ c_str a = c_str b := by
  unfold strcmp
  by_cases h : c_str a = c_str b
  · simp [h]
  · rw [if_neg h]
    constructor
    · intro h'
      split at h' <;> simp at h'
    · intro h'
      exact absurd h' h

/-- The part of `get_obj` in front of the precondition checks, when no store call
fails and the object exists. -/
theorem get_obj_head (w : Rados) (bucket obj : Str) (ofs end_ : Int)
    (attrs : Option (List (Str × bufferlist))) (mod_ptr unmod_ptr : Option Int)
    (if_match if_nomatch : Option Str) (get_data : Bool) (err : rgw_err) (o : RadosObject)
    (hf : w.faults = []) (ho : w.get_object bucket ⟨obj⟩ = some o) :
    get_obj w bucket obj ofs end_ attrs mod_ptr unmod_ptr if_match if_nomatch get_data err =
      match get_obj_cond w bucket obj o.mtime mod_ptr unmod_ptr if_match if_nomatch err with
      | none => none
      | some (some r, err, w4) => some ⟨r, none, attrs.map (fun _ => o.xattrs), err, w4⟩
      | some (none, err, w4) =>
        some (get_obj_data w4 bucket ⟨obj⟩ o.data.length ofs end_
          (attrs.map (fun _ => o.xattrs)) get_data err) := by
  obtain ⟨p, hp, _⟩ := get_object_pool ho
  unfold get_obj open_pool
  rw [open_pool_ok hf hp]
  simp only [lt_self_iff_false, if_false]
  rw [stat_ok hf ho]
  simp only [lt_self_iff_false, if_false]
  cases attrs with
  | none => rfl
  | some a =>
    simp only [getxattrs_ok hf ho, lt_self_iff_false, if_false, Option.map_some']
    try rfl

theorem get_obj_data_err (w : Rados) (pool : rados_pool_t) (oid : object_t) (size : Nat)
    (ofs end_ : Int) (attrs : Option (List (Str × bufferlist))) (get_data : Bool)
    (err : rgw_err) : (get_obj_data w pool oid size ofs end_ attrs get_data err).err = err := by
  unfold get_obj_data
  simp only []
  split_ifs <;> rfl

/-- C3 (conditional evaluator without unmodified-since): for an existing object `o`
whose etag, as `get_attr` reports it, is `E`, and when no store call fails, `get_obj`
(a) fails with `-ECANCELED` and "304" / "PreconditionFailed" when modified-since is
set and the mtime is smaller, whatever if-match and if-none-match are; (b) otherwise
fails with `-ECANCELED` and "412" / "PreconditionFailed" when if-match is set and
differs from the etag or if-none-match is set and equals it (compared as C strings,
as `strcmp` does); (c) otherwise passes the checks: the call is the data phase
`get_obj_data`, and the error descriptor is left as it was. -/
theorem get_obj_conditional (w : Rados) (bucket obj : Str) (ofs end_ : Int)
    (attrs : Option (List (Str × bufferlist))) (M : Option Int) (I N : Option Str)
    (get_data : Bool) (err : rgw_err) (o : RadosObject) (E : bufferlist)
    (hf : w.faults = []) (ho : w.get_object bucket ⟨obj⟩ = some o)
    (hE : get_attr w bucket obj RGW_ATTR_ETAG = (0, E, w)) :
    (∀ m, M = some m → o.mtime < m →
      get_obj w bucket obj ofs end_ attrs M none I N get_data err =
        some ⟨-ECANCELED, none, attrs.map (fun _ => o.xattrs),
          ⟨"304", "PreconditionFailed"⟩, w⟩) ∧
    ((∀ m, M = some m → m ≤ o.mtime) →
      ((∃ i, I = some i ∧ c_str i ≠ c_str E) ∨ (∃ n, N = some n ∧ c_str n = c_str E)) →
      get_obj w bucket obj ofs end_ attrs M none I N get_data err =
        some ⟨-ECANCELED, none, attrs.map (fun _ => o.xattrs),
          ⟨"412", "PreconditionFailed"⟩, w⟩) ∧
    ((∀ m, M = some m → m ≤ o.mtime) → (∀ i, I = some i → c_str i = c_str E) →
      (∀ n, N = some n → c_str n ≠ c_str E) →
      get_obj w bucket obj ofs end_ attrs M none I N get_data err =
        some (get_obj_data w bucket ⟨obj⟩ o.data.length ofs end_
          (attrs.map (fun _ => o.xattrs)) get_data err) ∧
      (get_obj_data w bucket ⟨obj⟩ o.data.length ofs end_
          (attrs.map (fun _ => o.xattrs)) get_data err).err = err) := by
  rw [get_obj_head w bucket obj ofs end_ attrs M none I N get_data err o hf ho]
  refine ⟨?_, ?_, ?_⟩
  · intro m hM hlt
    subst hM
    unfold get_obj_cond
    rw [if_pos ⟨rfl, hlt⟩]
  · intro hM hIN
    have h1 : ¬ (M.isSome = true ∧ o.mtime < M.getD 0) := by
      rintro ⟨h, h'⟩
      cases M with
      | none => cases h
      | some m => exact absurd (hM m rfl) (not_le.mpr h')
    unfold get_obj_cond
    rw [if_neg h1]
    simp only []
    unfold get_obj_etag
    have h2 : I.isSome = true ∨ N.isSome = true := by
      rcases hIN with ⟨i, hi, _⟩ | ⟨n, hn, _⟩
      · exact Or.inl (by rw [hi]; rfl)
      · exact Or.inr (by rw [hn]; rfl)
    rw [if_pos h2, hE]
    simp only [lt_self_iff_false, if_false]
    by_cases h3 : I.isSome = true ∧ strcmp (I.getD []) E ≠ 0
    · rw [if_pos h3]
    · rw [if_neg h3]
      have h4 : N.isSome = true ∧ strcmp (N.getD []) E = 0 := by
        rcases hIN with ⟨i, hi, hne⟩ | ⟨n, hn, he⟩
        · exfalso
          apply h3
          subst hi
          exact ⟨rfl, fun h => hne ((strcmp_eq_zero i E).mp h)⟩
        · subst hn
          exact ⟨rfl, (strcmp_eq_zero n E).mpr he⟩
      rw [if_pos h4]
  · intro hM hI hN
    refine ⟨?_, get_obj_data_err _ _ _ _ _ _ _ _ _⟩
    have h1 : ¬ (M.isSome = true ∧ o.mtime < M.getD 0) := by
      rintro ⟨h, h'⟩
      cases M with
      | none => cases h
      | some m => exact absurd (hM m rfl) (not_le.mpr h')
    unfold get_obj_cond
    rw [if_neg h1]
    simp only []
    unfold get_obj_etag
    by_cases h2 : I.isSome = true ∨ N.isSome = true
    · rw [if_pos h2, hE]
      simp only [lt_self_iff_false, if_false]
      have h3 : ¬ (I.isSome = true ∧ strcmp (I.getD []) E ≠ 0) := by
        rintro ⟨h, h'⟩
        cases I with
        | none => cases h
        | some i => exact h' ((strcmp_eq_zero i E).mpr (hI i rfl))
      have h4 : ¬ (N.isSome = true ∧ strcmp (N.getD []) E = 0) := by
        rintro ⟨h, h'⟩
        cases N with
        | none => cases h
        | some n => exact hN n rfl ((strcmp_eq_zero n E).mp h')
      rw [if_neg h3, if_neg h4]
    · rw [if_neg h2]

/-! ## The store calls of `get_obj` leave `cout` alone -/

theorem open_pool_world (w : Rados) (name : Str) : (w.open_pool name).2.2 = w.fault_pop := by
  unfold Rados.open_pool
  split
  · rfl
  · split <;> rfl

theorem stat_world (w : Rados) (pool : rados_pool_t) (oid : object_t) :
    (w.stat pool oid).2.2.2 = w.fault_pop := by
  unfold Rados.stat
  split
  · rfl
  · split <;> rfl

theorem getxattrs_world (w : Rados) (pool : rados_pool_t) (oid : object_t) :
    (w.getxattrs pool oid).2.2 = w.fault_pop := by
  unfold Rados.getxattrs
  split
  · rfl
  · split <;> rfl

theorem getxattr_world (w : Rados) (pool : rados_pool_t) (oid : object_t) (name : Str) :
    (w.getxattr pool oid name).2.2 = w.fault_pop := by
  unfold Rados.getxattr
  split
  · rfl
  · split
    · rfl
    · split <;> rfl

theorem read_world (w : Rados) (pool : rados_pool_t) (oid : object_t) (off : Int) (len : Nat) :
    (w.read pool oid off len).2.2 = w.fault_pop := by
  unfold Rados.read
  split
  · rfl
  · split
    · rfl
    · split <;> rfl

theorem get_attr_cout (w : Rados) (bucket obj name : Str) :
    (get_attr w bucket obj name).2.2.cout = w.cout := by
  unfold get_attr open_pool
  simp only []
  generalize (if obj.length = 0 then root_bucket else bucket) = b
  generalize (if obj.length = 0 then bucket else obj) = k
  have h1 := open_pool_world w b
  cases hx : w.open_pool b with
  | mk r x =>
    obtain ⟨pool, w1⟩ := x
    rw [hx] at h1
    simp only [] at h1 ⊢
    split
    · rw [h1]; rfl
    · have h2 := getxattr_world w1 pool ⟨k⟩ name
      cases hy : w1.getxattr pool ⟨k⟩ name with
      | mk r2 y =>
        obtain ⟨dest, w2⟩ := y
        rw [hy] at h2
        simp only [] at h2 ⊢
        split <;> (rw [h2, h1]; rfl)

theorem get_obj_etag_spec (w : Rados) (bucket obj : Str) (if_match if_nomatch : Option Str)
    (err : rgw_err) :
    (get_obj_etag w bucket obj if_match if_nomatch err).2.2.cout = w.cout ∧
    ∀ r, (get_obj_etag w bucket obj if_match if_nomatch err).1 = some r → r < 0 := by
  unfold get_obj_etag
  split
  · have h := get_attr_cout w bucket obj RGW_ATTR_ETAG
    cases hx : get_attr w bucket obj RGW_ATTR_ETAG with
    | mk r x =>
      obtain ⟨etag, w1⟩ := x
      rw [hx] at h
      simp only [] at h ⊢
      split
      · refine ⟨h, ?_⟩
        intro r' hr'
        cases hr'
        assumption
      · split
        · refine ⟨h, ?_⟩
          intro r' hr'
          cases hr'
          decide
        · split
          · refine ⟨h, ?_⟩
            intro r' hr'
            cases hr'
            decide
          · refine ⟨h, ?_⟩
            intro r' hr'
            cases hr'
  · refine ⟨rfl, ?_⟩
    intro r' hr'
    cases hr'

theorem get_obj_cond_spec (w : Rados) (bucket obj : Str) (mtime : Int)
    (mod_ptr unmod_ptr : Option Int) (if_match if_nomatch : Option Str) (err : rgw_err)
    (x : Option Int × rgw_err × Rados)
    (h : get_obj_cond w bucket obj mtime mod_ptr unmod_ptr if_match if_nomatch err = some x) :
    x.2.2.cout = w.cout ∧ ∀ r, x.1 = some r → r < 0 := by
  unfold get_obj_cond at h
  have he := get_obj_etag_spec w bucket obj if_match if_nomatch err
  split at h
  · cases h
    refine ⟨rfl, ?_⟩
    intro r hr
    cases hr
    decide
  · split at h
    · split at h
      · cases h
      · split at h
        · cases h
          refine ⟨rfl, ?_⟩
          intro r hr
          cases hr
          decide
        · cases h
          exact he
    · cases h
      exact he

theorem get_obj_data_cout (w : Rados) (pool : rados_pool_t) (oid : object_t) (size : Nat)
    (ofs end_ : Int) (attrs : Option (List (Str × bufferlist))) (err : rgw_err) :
    (get_obj_data w pool oid size ofs end_ attrs true err).w.cout =
      w.cout ++ [(ofs, if end_ ≤ 0 then 0 else to_u64 (end_ - ofs + 1))] := by
  unfold get_obj_data
  simp only [not_true_eq_false, if_false]
  generalize (if end_ ≤ 0 then 0 else to_u64 (end_ - ofs + 1)) = len
  have h := read_world ({ w with cout := w.cout ++ [(ofs, len)] } : Rados) pool oid ofs len
  cases hx : ({ w with cout := w.cout ++ [(ofs, len)] } : Rados).read pool oid ofs len with
  | mk r x =>
    obtain ⟨bl, w1⟩ := x
    rw [hx] at h
    simp only [] at h ⊢
    split_ifs <;> (simp only []; rw [h]; rfl)

theorem to_u64_eq_max (n : Int) (h1 : 0 ≤ n) (h2 : n < 2 ^ 64) : (to_u64 n : Int) = max 0 n := by
  unfold to_u64
  rw [Int.emod_eq_of_lt h1 h2, max_eq_right h1]
  exact Int.toNat_of_nonneg h1

theorem to_u64_cast (n : Int) : (to_u64 n : Int) = n % 2 ^ 64 := by
  unfold to_u64
  exact Int.toNat_of_nonneg (Int.emod_nonneg _ (by norm_num))

/-- A call of `get_obj` for the data that does not fail has written one line to `cout`,
with the length that it passes to the read. -/
theorem get_obj_cout (w : Rados) (bucket obj : Str) (ofs end_ : Int)
    (attrs : Option (List (Str × bufferlist))) (mod_ptr unmod_ptr : Option Int)
    (if_match if_nomatch : Option Str) (err : rgw_err) (g : get_obj_ret)
    (hg : get_obj w bucket obj ofs end_ attrs mod_ptr unmod_ptr if_match if_nomatch true err
      = some g)
    (hr : 0 ≤ g.r) :
    g.w.cout = w.cout ++ [(ofs, if end_ ≤ 0 then 0 else to_u64 (end_ - ofs + 1))] := by
  unfold get_obj open_pool at hg
  have h1 := open_pool_world w bucket
  cases hx1 : w.open_pool bucket with
  | mk r1 x1 =>
    obtain ⟨pool, w1⟩ := x1
    rw [hx1] at hg h1
    simp only [] at hg h1
    by_cases hr1 : r1 < 0
    · rw [if_pos hr1] at hg
      cases hg
      exact absurd hr (not_le.mpr hr1)
    · rw [if_neg hr1] at hg
      have h2 := stat_world w1 pool ⟨obj⟩
      cases hx2 : w1.stat pool ⟨obj⟩ with
      | mk r2 x2 =>
        obtain ⟨size, mtime, w2⟩ := x2
        rw [hx2] at hg h2
        simp only [] at hg h2
        by_cases hr2 : r2 < 0
        · rw [if_pos hr2] at hg
          cases hg
          exact absurd hr (not_le.mpr hr2)
        · rw [if_neg hr2] at hg
          have hc2 : w2.cout = w.cout := by rw [h2, h1]; rfl
          have key : ∀ (r3 : Int) (attrs3 : Option (List (Str × bufferlist))) (w3 : Rados),
              w3.cout = w.cout →
              (if r3 < 0 then some (⟨r3, none, attrs3, err, w3⟩ : get_obj_ret)
                else match get_obj_cond w3 bucket obj mtime mod_ptr unmod_ptr if_match
                    if_nomatch err with
                  | none => none
                  | some (some r, err, w4) => some ⟨r, none, attrs3, err, w4⟩
                  | some (none, err, w4) =>
                    some (get_obj_data w4 pool ⟨obj⟩ size ofs end_ attrs3 true err)) = some g →
              g.w.cout = w.cout ++ [(ofs, if end_ ≤ 0 then 0 else to_u64 (end_ - ofs + 1))] := by
            intro r3 attrs3 w3 hc3 hg3
            by_cases hr3 : r3 < 0
            · rw [if_pos hr3] at hg3
              cases hg3
              exact absurd hr (not_le.mpr hr3)
            · rw [if_neg hr3] at hg3
              cases hc : get_obj_cond w3 bucket obj mtime mod_ptr unmod_ptr if_match
                  if_nomatch err with
              | none =>
                rw [hc] at hg3
                cases hg3
              | some x =>
                obtain ⟨c1, c2⟩ := get_obj_cond_spec _ _ _ _ _ _ _ _ _ x hc
                obtain ⟨or, err4, w4⟩ := x
                rw [hc] at hg3
                cases or with
                | some r =>
                  simp only [] at hg3
                  cases hg3
                  exact absurd hr (not_le.mpr (c2 r rfl))
                | none =>
                  simp only [] at hg3
                  cases hg3
                  rw [get_obj_data_cout]
                  simp only [] at c1
                  rw [c1, hc3]
          cases attrs with
          | none => exact key 0 none w2 hc2 hg
          | some a =>
            have h3 := getxattrs_world w2 pool ⟨obj⟩
            cases hx3 : w2.getxattrs pool ⟨obj⟩ with
            | mk r3 x3 =>
              obtain ⟨m, w3⟩ := x3
              rw [hx3] at hg h3
              simp only [] at hg h3
              exact key r3 (some m) w3 (by rw [h3]; exact hc2) hg

/-- C10 (read-range length, amended): when `get_obj` is called with `get_data = true`
and does not fail, the length `len` that it passes to the read of the store (and writes
to `cout`) is 0 when `end <= 0`, and `end - ofs + 1` reduced modulo 2^64 when
`end > 0`; this is `max(0, end - ofs + 1)` whenever `ofs <= end + 1`. -/
theorem get_obj_read_len (w : Rados) (bucket obj : Str) (ofs end_ : Int)
    (attrs : Option (List (Str × bufferlist))) (mod_ptr unmod_ptr : Option Int)
    (if_match if_nomatch : Option Str) (err : rgw_err) (g : get_obj_ret)
    (hg : get_obj w bucket obj ofs end_ attrs mod_ptr unmod_ptr if_match if_nomatch true err
      = some g)
    (hr : 0 ≤ g.r) :
    ∃ len : Nat, g.w.cout = w.cout ++ [(ofs, len)] ∧
      (end_ ≤ 0 → len = 0) ∧
      (0 < end_ → (len : Int) = (end_ - ofs + 1) % 2 ^ 64) ∧
      (0 < end_ → ofs ≤ end_ + 1 → end_ - ofs + 1 < 2 ^ 64 →
        (len : Int) = max 0 (end_ - ofs + 1)) := by
  refine ⟨_, get_obj_cout w bucket obj ofs end_ attrs mod_ptr unmod_ptr if_match if_nomatch
    err g hg hr, ?_, ?_, ?_⟩
  · intro h
    rw [if_pos h]
  · intro h
    rw [if_neg (by omega)]
    exact to_u64_cast _
  · intro h h1 h2
    rw [if_neg (by omega)]
    exact to_u64_eq_max _ (by omega) h2

/-! ## Writes without faults -/

theorem set_object_get {w : Rados} {pool : rados_pool_t} {p : RadosPool}
    (hp : map_find w.pools pool = some p) (oid : object_t) (o : RadosObject) :
    (w.set_object pool oid o).get_object pool oid = some o := by
  unfold Rados.set_object Rados.get_object
  rw [hp]
  simp only [map_find_map_set, if_true]

theorem set_object_faults (w : Rados) (pool : rados_pool_t) (oid : object_t) (o : RadosObject) :
    (w.set_object pool oid o).faults = w.faults := by
  unfold Rados.set_object
  split <;> rfl

theorem set_object_clock (w : Rados) (pool : rados_pool_t) (oid : object_t) (o : RadosObject) :
    (w.set_object pool oid o).clock = w.clock := by
  unfold Rados.set_object
  split <;> rfl

theorem set_object_pool {w : Rados} {pool : rados_pool_t} {p : RadosPool}
    (hp : map_find w.pools pool = some p) (oid : object_t) (o : RadosObject) :
    ∃ p', map_find (w.set_object pool oid o).pools pool = some p' := by
  unfold Rados.set_object
  rw [hp]
  simp only [map_find_map_set, if_true]
  exact ⟨_, rfl⟩

theorem setxattr_ok {w : Rados} (hf : w.faults = []) {pool : rados_pool_t} {p : RadosPool}
    (hp : map_find w.pools pool = some p) (oid : object_t) (n : Str) (bl : bufferlist) :
    ∃ w', w.setxattr pool oid n bl = (0, w') ∧ w'.faults = [] ∧
      (∃ p', map_find w'.pools pool = some p') ∧
      w'.get_object pool oid ≠ none ∧
      w'.obj_data pool oid = w.obj_data pool oid ∧
      ∀ k, w'.obj_attr pool oid k = if n = k then some bl else w.obj_attr pool oid k := by
  unfold Rados.setxattr
  rw [fault_code_nil hf, fault_pop_nil hf, hp]
  simp only [lt_self_iff_false, if_false]
  cases ho : w.get_object pool oid with
  | none =>
    refine ⟨_, rfl, ?_, set_object_pool hp _ _, ?_, ?_, ?_⟩
    · rw [set_object_faults]; exact hf
    · rw [set_object_get hp]; exact Option.noConfusion
    · unfold Rados.obj_data
      rw [set_object_get hp, ho]
    · intro k
      unfold Rados.obj_attr
      rw [set_object_get hp, ho]
      show (if n = k then some bl else none) = _
      rfl
  | some o =>
    refine ⟨_, rfl, ?_, set_object_pool hp _ _, ?_, ?_, ?_⟩
    · rw [set_object_faults]; exact hf
    · rw [set_object_get hp]; exact Option.noConfusion
    · unfold Rados.obj_data
      rw [set_object_get hp, ho]
    · intro k
      unfold Rados.obj_attr
      rw [set_object_get hp, ho]
      exact map_find_map_set _ _ _ _

theorem write_range_zero (old bl : bufferlist) :
    write_range old 0 bl = bl ++ old.drop bl.length := by
  unfold write_range
  simp

theorem write_ok {w : Rados} (hf : w.faults = []) {pool : rados_pool_t} {p : RadosPool}
    (hp : map_find w.pools pool = some p) (oid : object_t) (bl : bufferlist) :
    ∃ w', w.write pool oid 0 bl bl.length = ((bl.length : Int), w') ∧ w'.faults = [] ∧
      w'.get_object pool oid ≠ none ∧
      w'.obj_data pool oid = bl ++ (w.obj_data pool oid).drop bl.length ∧
      ∀ k, w'.obj_attr pool oid k = w.obj_attr pool oid k := by
  unfold Rados.write
  rw [fault_code_nil hf, fault_pop_nil hf, hp]
  simp only [lt_self_iff_false, if_false, List.take_length]
  cases ho : w.get_object pool oid with
  | none =>
    refine ⟨_, rfl, ?_, ?_, ?_, ?_⟩
    · rw [set_object_faults]; exact hf
    · rw [set_object_get hp]; exact Option.noConfusion
    · unfold Rados.obj_data
      rw [set_object_get hp, ho]
      exact write_range_zero _ _
    · intro k
      unfold Rados.obj_attr
      rw [set_object_get hp, ho]
      rfl
  | some o =>
    refine ⟨_, rfl, ?_, ?_, ?_, ?_⟩
    · rw [set_object_faults]; exact hf
    · rw [set_object_get hp]; exact Option.noConfusion
    · unfold Rados.obj_data
      rw [set_object_get hp, ho]
      exact write_range_zero _ _
    · intro k
      unfold Rados.obj_attr
      rw [set_object_get hp, ho]

theorem map_find_none_of_not_mem {β : Type} (m : List (Str × β)) (k : Str)
    (h : k ∉ m.map Prod.fst) : map_find m k = none := by
  induction m with
  | nil => rfl
  | cons e m ih =>
    obtain ⟨a, b⟩ := e
    rw [List.map_cons, List.mem_cons, not_or] at h
    rw [map_find_cons, if_neg (fun e => h.1 e.symm)]
    exact ih h.2

/-- The attribute loop of `put_obj` without faults: every entry with a non-empty value
is set, and nothing else changes on the object. -/
theorem put_obj_attrs_ok (pool : rados_pool_t) (oid : object_t)
    (attrs : List (Str × bufferlist)) (hn : (attrs.map Prod.fst).Nodup) :
    ∀ (w : Rados), w.faults = [] → (∃ p, map_find w.pools pool = some p) →
      ∃ w', put_obj_attrs pool oid attrs w = (none, w') ∧ w'.faults = [] ∧
        (∃ p', map_find w'.pools pool = some p') ∧
        w'.obj_data pool oid = w.obj_data pool oid ∧
        ∀ k, w'.obj_attr pool oid k = attr_written (map_find attrs k) (w.obj_attr pool oid k) := by
  induction attrs with
  | nil =>
    intro w hf hp
    exact ⟨w, rfl, hf, hp, rfl, fun k => rfl⟩
  | cons e attrs ih =>
    obtain ⟨n, bl⟩ := e
    rw [List.map_cons, List.nodup_cons] at hn
    intro w hf hp
    obtain ⟨p, hp⟩ := hp
    unfold put_obj_attrs
    by_cases hbl : bl.length ≠ 0
    · rw [if_pos hbl]
      obtain ⟨w1, h1, hf1, hp1, _, hd1, ha1⟩ := setxattr_ok hf hp oid n bl
      rw [h1]
      simp only [lt_self_iff_false, if_false]
      obtain ⟨w', h2, hf2, hp2, hd2, ha2⟩ := ih hn.2 w1 hf1 hp1
      refine ⟨w', h2, hf2, hp2, hd2.trans hd1, ?_⟩
      intro k
      rw [ha2 k, ha1 k, map_find_cons]
      have hne : bl ≠ [] := fun e => hbl (by rw [e]; rfl)
      by_cases hk : n = k
      · subst hk
        rw [map_find_none_of_not_mem attrs n hn.1]
        simp only [attr_written, if_true, if_neg hne]
      · simp only [if_neg hk]
    · rw [if_neg hbl]
      obtain ⟨w', h2, hf2, hp2, hd2, ha2⟩ := ih hn.2 w hf ⟨p, hp⟩
      refine ⟨w', h2, hf2, hp2, hd2, ?_⟩
      intro k
      rw [ha2 k, map_find_cons]
      have he : bl = [] := by
        cases bl with
        | nil => rfl
        | cons a t => exact absurd (by simp) hbl
      by_cases hk : n = k
      · subst hk
        rw [map_find_none_of_not_mem attrs n hn.1]
        simp only [attr_written, if_true, if_pos he]
      · simp only [if_neg hk]

theorem put_obj_ok (w : Rados) (id bucket obj : Str) (data : bufferlist) (mtime : Option Int)
    (attrs : List (Str × bufferlist)) (hf : w.faults = [])
    (hp : ∃ p, map_find w.pools bucket = some p) (hn : (attrs.map Prod.fst).Nodup) :
    ∃ mt w', put_obj w id bucket obj data data.length mtime attrs = (0, mt, w') ∧
      w'.faults = [] ∧ w'.get_object bucket ⟨obj⟩ ≠ none ∧
      w'.obj_data bucket ⟨obj⟩ = data ++ (w.obj_data bucket ⟨obj⟩).drop data.length ∧
      ∀ k, w'.obj_attr bucket ⟨obj⟩ k =
        attr_written (map_find attrs k) (w.obj_attr bucket ⟨obj⟩ k) := by
  obtain ⟨p, hp0⟩ := hp
  unfold put_obj open_pool
  rw [open_pool_ok hf hp0]
  simp only [lt_self_iff_false, if_false]
  obtain ⟨w2, h2, hf2, ⟨p2, hp2⟩, hd2, ha2⟩ := put_obj_attrs_ok bucket ⟨obj⟩ attrs hn w hf ⟨p, hp0⟩
  rw [h2]
  simp only [List.take_length]
  obtain ⟨w3, h3, hf3, ho3, hd3, ha3⟩ := write_ok hf2 hp2 ⟨obj⟩ data
  rw [h3]
  have hnn : ¬ ((data.length : Int) < 0) := by omega
  simp only [if_neg hnn]
  cases mtime with
  | none =>
    refine ⟨none, w3, rfl, hf3, ho3, ?_, ?_⟩
    · rw [hd3, hd2]
    · intro k
      exact (ha3 k).trans (ha2 k)
  | some t =>
    cases hg : w3.get_object bucket ⟨obj⟩ with
    | none => exact absurd hg ho3
    | some o =>
      simp only [stat_ok hf3 hg, lt_self_iff_false, if_false]
      refine ⟨some o.mtime, w3, rfl, hf3, ho3, ?_, ?_⟩
      · rw [hd3, hd2]
      · intro k
        exact (ha3 k).trans (ha2 k)

theorem get_attr_nofault (w : Rados) (bucket obj name : Str) (hf : w.faults = []) :
    (get_attr w bucket obj name).2.2 = w := by
  unfold get_attr open_pool
  simp only []
  generalize (if obj.length = 0 then root_bucket else bucket) = b
  generalize (if obj.length = 0 then bucket else obj) = k
  have h1 := open_pool_world w b
  rw [fault_pop_nil hf] at h1
  cases hx : w.open_pool b with
  | mk r x =>
    obtain ⟨pool, w1⟩ := x
    rw [hx] at h1
    simp only [] at h1 ⊢
    subst h1
    split
    · rfl
    · have h2 := getxattr_world w1 pool ⟨k⟩ name
      rw [fault_pop_nil hf] at h2
      cases hy : w1.getxattr pool ⟨k⟩ name with
      | mk r2 y =>
        obtain ⟨dest, w2⟩ := y
        rw [hy] at h2
        simp only [] at h2 ⊢
        subst h2
        split <;> rfl

theorem get_obj_etag_nofault (w : Rados) (bucket obj : Str) (if_match if_nomatch : Option Str)
    (err : rgw_err) (hf : w.faults = []) :
    (get_obj_etag w bucket obj if_match if_nomatch err).2.2 = w := by
  unfold get_obj_etag
  split
  · have h := get_attr_nofault w bucket obj RGW_ATTR_ETAG hf
    cases hx : get_attr w bucket obj RGW_ATTR_ETAG with
    | mk r x =>
      obtain ⟨etag, w1⟩ := x
      rw [hx] at h
      simp only [] at h ⊢
      subst h
      split_ifs <;> rfl
  · rfl

theorem get_obj_cond_nofault (w : Rados) (bucket obj : Str) (mtime : Int)
    (mod_ptr unmod_ptr : Option Int) (if_match if_nomatch : Option Str) (err : rgw_err)
    (x : Option Int × rgw_err × Rados) (hf : w.faults = [])
    (h : get_obj_cond w bucket obj mtime mod_ptr unmod_ptr if_match if_nomatch err = some x) :
    x.2.2 = w := by
  unfold get_obj_cond at h
  have he := get_obj_etag_nofault w bucket obj if_match if_nomatch err hf
  split at h
  · cases h
    rfl
  · split at h
    · split at h
      · cases h
      · split at h
        · cases h
          rfl
        · cases h
          exact he
    · cases h
      exact he

theorem read_whole_ok {w : Rados} (hf : w.faults = []) {pool : rados_pool_t} {oid : object_t}
    {o : RadosObject} (ho : w.get_object pool oid = some o) :
    w.read pool oid 0 0 = ((o.data.length : Int), o.data, w) := by
  unfold Rados.read
  rw [fault_code_nil hf, fault_pop_nil hf, ho]
  simp

/-- A whole-object read `get_obj(.., ofs=0, end=-1, .., get_data=true)` that does not
fail returns the length and the bytes of the object, when no store call fails. -/
theorem get_obj_whole (w : Rados) (bucket obj : Str)
    (attrs : Option (List (Str × bufferlist))) (mod_ptr unmod_ptr : Option Int)
    (if_match if_nomatch : Option Str) (err : rgw_err) (o : RadosObject) (g : get_obj_ret)
    (hf : w.faults = []) (ho : w.get_object bucket ⟨obj⟩ = some o)
    (hg : get_obj w bucket obj 0 (-1) attrs mod_ptr unmod_ptr if_match if_nomatch true err
      = some g)
    (hr : 0 ≤ g.r) :
    g.r = o.data.length ∧ g.data.getD [] = o.data ∧
      g.attrs = attrs.map (fun _ => o.xattrs) ∧
      g.w = { w with cout := w.cout ++ [(0, 0)] } := by
  rw [get_obj_head w bucket obj 0 (-1) attrs mod_ptr unmod_ptr if_match if_nomatch true err o
    hf ho] at hg
  cases hc : get_obj_cond w bucket obj o.mtime mod_ptr unmod_ptr if_match if_nomatch err with
  | none =>
    rw [hc] at hg
    cases hg
  | some x =>
    obtain ⟨_, c2⟩ := get_obj_cond_spec _ _ _ _ _ _ _ _ _ x hc
    have c3 := get_obj_cond_nofault _ _ _ _ _ _ _ _ _ x hf hc
    obtain ⟨or, err4, w4⟩ := x
    rw [hc] at hg
    simp only [] at c3
    subst c3
    cases or with
    | some r =>
      simp only [] at hg
      cases hg
      exact absurd hr (not_le.mpr (c2 r rfl))
    | none =>
      simp only [] at hg
      cases hg
      unfold get_obj_data
      have hr' : ({ w4 with cout := w4.cout ++ [((0 : Int), 0)] } : Rados).read bucket ⟨obj⟩ 0 0 =
          ((o.data.length : Int), o.data, { w4 with cout := w4.cout ++ [((0 : Int), 0)] }) :=
        read_whole_ok (w := { w4 with cout := w4.cout ++ [((0 : Int), 0)] }) hf ho
      simp only [not_true_eq_false, if_false, Int.reduceNeg, Left.neg_nonpos_iff, zero_le_one,
        if_true, hr']
      have hnn : ¬ ((o.data.length : Int) < 0) := by omega
      rw [if_neg hnn]
      by_cases hpos : (o.data.length : Int) > 0
      · rw [if_pos hpos]
        exact ⟨rfl, rfl, rfl, rfl⟩
      · rw [if_neg hpos]
        refine ⟨rfl, ?_, rfl, rfl⟩
        have : o.data.length = 0 := by omega
        rw [List.length_eq_zero.mp this]
        rfl

theorem merged_fold (X : List (Str × bufferlist)) (hn : (X.map Prod.fst).Nodup) :
    ∀ (A : List (Str × bufferlist)) (n : Str),
      map_find (X.foldl (fun m iter => map_set m iter.1 iter.2) A) n = merged_attr A X n := by
  induction X with
  | nil =>
    intro A n
    rfl
  | cons e X ih =>
    obtain ⟨k, v⟩ := e
    rw [List.map_cons, List.nodup_cons] at hn
    intro A n
    rw [List.foldl_cons, ih hn.2]
    unfold merged_attr
    rw [map_find_cons, map_find_map_set]
    by_cases hk : k = n
    · subst hk
      rw [map_find_none_of_not_mem X k hn.1]
      simp only [if_true]
    · simp only [if_neg hk]

theorem merged_sorted (X A : List (Str × bufferlist)) (h : keys_sorted A) :
    keys_sorted (X.foldl (fun m iter => map_set m iter.1 iter.2) A) := by
  induction X generalizing A with
  | nil => exact h
  | cons e X ih =>
    rw [List.foldl_cons]
    exact ih _ (map_set_sorted _ _ _ h)

theorem put_obj_no_pool (w : Rados) (id bucket obj : Str) (data : bufferlist) (size : Nat)
    (mtime : Option Int) (attrs : List (Str × bufferlist))
    (hp : map_find w.pools bucket = none) :
    (put_obj w id bucket obj data size mtime attrs).1 < 0 := by
  unfold put_obj open_pool Rados.open_pool
  rw [hp]
  by_cases h : w.fault_code < 0
  · simp only [if_pos h]
    exact h
  · have h' : -ENOENT < 0 := by decide
    simp only [if_neg h, if_pos h']
    exact h'

/-- C7 (copy merges attributes, amended): when no store call fails, the source object
`so` has the attribute map `so.xattrs` (a map, with ascending names) and `X` is a map,
a `copy_obj` that succeeds leaves a destination object on which every name `n` holds
the merged value `merged_attr so.xattrs X n` (that of `X` if `n` is in `X`, that of
the source otherwise) when there is one and it is not empty, and holds what the
destination held for `n` before the call otherwise (nothing for a new destination);
the bytes of the destination are those of the source when the destination held no
more bytes than the source before; and the map `attrs` handed back is the merged map. -/
theorem copy_obj_merges (w : Rados) (id dest_bucket dest_obj src_bucket src_obj : Str)
    (mtime mod_ptr unmod_ptr : Option Int) (if_match if_nomatch : Option Str)
    (X : List (Str × bufferlist)) (err : rgw_err) (so : RadosObject) (c : copy_obj_ret)
    (hf : w.faults = []) (hs : w.get_object src_bucket ⟨src_obj⟩ = some so)
    (hA : keys_sorted so.xattrs) (hX : (X.map Prod.fst).Nodup)
    (hc : copy_obj w id dest_bucket dest_obj src_bucket src_obj mtime mod_ptr unmod_ptr
      if_match if_nomatch X err = some c)
    (hret : 0 ≤ c.ret) :
    c.w.get_object dest_bucket ⟨dest_obj⟩ ≠ none ∧
    ((w.obj_data dest_bucket ⟨dest_obj⟩).length ≤ so.data.length →
      c.w.obj_data dest_bucket ⟨dest_obj⟩ = so.data) ∧
    (∀ n, c.w.obj_attr dest_bucket ⟨dest_obj⟩ n =
      attr_written (merged_attr so.xattrs X n) (w.obj_attr dest_bucket ⟨dest_obj⟩ n)) ∧
    (∀ n, map_find c.attrs n = merged_attr so.xattrs X n) := by
  unfold copy_obj at hc
  cases hg : get_obj w src_bucket src_obj 0 (-1) (some []) mod_ptr unmod_ptr if_match
      if_nomatch true err with
  | none =>
    rw [hg] at hc
    cases hc
  | some g =>
    rw [hg] at hc
    simp only [] at hc
    by_cases hgr : g.r < 0
    · rw [if_pos hgr] at hc
      cases hc
      exact absurd hret (not_le.mpr hgr)
    · rw [if_neg hgr] at hc
      obtain ⟨g1, g2, g3, g4⟩ := get_obj_whole w src_bucket src_obj (some []) mod_ptr unmod_ptr
        if_match if_nomatch err so g hf hs hg (not_lt.mp hgr)
      have e1 : g.r.toNat = so.data.length := by rw [g1]; rfl
      have e3 : g.attrs.getD [] = so.xattrs := by rw [g3]; rfl
      rw [e1, g2, e3, g4] at hc
      generalize hwc : ({ w with cout := w.cout ++ [((0 : Int), 0)] } : Rados) = wc at hc
      have hfc : wc.faults = [] := by rw [← hwc]; exact hf
      have hpc : wc.pools = w.pools := by rw [← hwc]
      have hoc : ∀ b k, wc.get_object b k = w.get_object b k := by
        intro b k
        unfold Rados.get_object
        rw [hpc]
      have hns : ((X.foldl (fun m iter => map_set m iter.1 iter.2) so.xattrs).map
          Prod.fst).Nodup := sorted_nodup _ (merged_sorted X so.xattrs hA)
      cases hp : map_find wc.pools dest_bucket with
      | none =>
        exfalso
        have := put_obj_no_pool wc id dest_bucket dest_obj so.data so.data.length mtime
          (X.foldl (fun m iter => map_set m iter.1 iter.2) so.xattrs) hp
        cases hput : put_obj wc id dest_bucket dest_obj so.data so.data.length mtime
            (X.foldl (fun m iter => map_set m iter.1 iter.2) so.xattrs) with
        | mk ret x =>
          rw [hput] at hc this
          simp only [] at hc this
          cases hc
          exact absurd hret (not_le.mpr this)
      | some p =>
        obtain ⟨mt, w', h1, _, h3, h4, h5⟩ := put_obj_ok wc id dest_bucket dest_obj so.data mtime
          (X.foldl (fun m iter => map_set m iter.1 iter.2) so.xattrs) hfc ⟨p, hp⟩ hns
        rw [h1] at hc
        simp only [] at hc
        cases hc
        have hd : wc.obj_data dest_bucket ⟨dest_obj⟩ = w.obj_data dest_bucket ⟨dest_obj⟩ := by
          unfold Rados.obj_data
          rw [hoc]
        have ha : ∀ n, wc.obj_attr dest_bucket ⟨dest_obj⟩ n =
            w.obj_attr dest_bucket ⟨dest_obj⟩ n := by
          intro n
          unfold Rados.obj_attr
          rw [hoc]
        refine ⟨h3, ?_, ?_, ?_⟩
        · intro hlen
          show w'.obj_data dest_bucket ⟨dest_obj⟩ = so.data
          rw [h4, hd, List.drop_of_length_le hlen, List.append_nil]
        · intro n
          show w'.obj_attr dest_bucket ⟨dest_obj⟩ n = _
          rw [h5 n, merged_fold X hX, ha n]
        · intro n
          exact merged_fold X hX so.xattrs n

/-! ## The claims at concrete inputs -/

/-- C1 (put/get round trip), evaluated at the overwrite of a longer object: in
`store_b` the key `k` holds the 11 bytes `hello world`; `put_obj` of the 2 bytes `hi`
succeeds, and the whole-object `get_obj` that follows returns the length 11 and the
bytes `hillo world`, not the length 2 and the bytes `hi`. -/
theorem put_obj_keeps_tail :
    (put_obj store_b [] "b".toList "k".toList "hi".toList 2 none []).1 = 0 ∧
    (get_obj (put_obj store_b [] "b".toList "k".toList "hi".toList 2 none []).2.2
        "b".toList "k".toList 0 (-1) none none none none none true no_err).map
      (fun g => (g.r, g.data)) = some (11, some "hillo world".toList) := by
  decide

/-- C2 (unmodified-since precondition), evaluated at an object of mtime 50: with
modified-since 0 and unmodified-since 100 the call fails with `-ECANCELED` and "412" /
"PreconditionFailed" although 50 < 100; with unmodified-since 100 alone the check
reads `*mod_ptr` through a `NULL` pointer. -/
theorem get_obj_unmod_compares_mod :
    (get_obj store_b "b".toList "k".toList 0 (-1) none (some 0) (some 100) none none true
        no_err).map (fun g => (g.r, g.err)) =
      some (-ECANCELED, ⟨"412", "PreconditionFailed"⟩) ∧
    get_obj store_b "b".toList "k".toList 0 (-1) none none (some 100) none none true no_err
      = none := by
  decide

/-- C6 (common-prefix key), evaluated at the two-character delimiter `ab`: for the key
`xabz` the entry of `common_prefixes` is `xa`, the key cut behind the first character
of the delimiter, and not `xab`; with the delimiter `/` the objects `a/x`, `a/y`, `b/z`
give no literal result and the common prefixes `a/` and `b/`. -/
theorem list_objects_two_char_delim :
    list_objects store_two_char [] "b".toList (-1) [] "ab".toList [] [] [] =
      (0, [⟨"y".toList, 1, 50, []⟩], [("xa".toList, true)], store_two_char) ∧
    list_objects store_dirs [] "b".toList (-1) [] "/".toList [] [] [] =
      (0, [], [("a/".toList, true), ("b/".toList, true)], store_dirs) :=
  ⟨rfl, rfl⟩

/-- C8 (rollback of a bucket creation), evaluated at a store in which the write of
the attribute `acl` fails with `-ENOSPC`: `create_bucket` returns `-ENOSPC`, no pool `b`
exists afterwards, but the placeholder of `b` is still in the root pool, and a later
`create_bucket` of `b` is rejected with `-EEXIST`. -/
theorem create_bucket_leaves_placeholder :
    (create_bucket store_failing_setxattr [] "b".toList [("acl".toList, "private".toList)] 0).1
      = -ENOSPC ∧
    ((create_bucket store_failing_setxattr [] "b".toList
        [("acl".toList, "private".toList)] 0).2.get_object root_pool ⟨"b".toList⟩).isSome
      = true ∧
    map_find (create_bucket store_failing_setxattr [] "b".toList
        [("acl".toList, "private".toList)] 0).2.pools "b".toList = none ∧
    (create_bucket (create_bucket store_failing_setxattr [] "b".toList
        [("acl".toList, "private".toList)] 0).2 [] "b".toList [] 0).1 = -EEXIST := by
  decide

/-- C9 (bucket-level attribute alias), evaluated at a registered, empty bucket `b`:
`set_attr` with an empty key succeeds, but it sets the attribute on the object of empty
name in the pool of `b` and not on the placeholder of `b` in the root pool, and the
`get_attr` with an empty key that follows fails with `-ENODATA`. -/
theorem set_attr_empty_key_misses_placeholder :
    (set_attr store_empty_bucket "b".toList [] "acl".toList "v".toList).1 = 0 ∧
    (set_attr store_empty_bucket "b".toList [] "acl".toList "v".toList).2.obj_attr
      root_pool ⟨"b".toList⟩ "acl".toList = none ∧
    (set_attr store_empty_bucket "b".toList [] "acl".toList "v".toList).2.obj_attr
      "b".toList ⟨[]⟩ "acl".toList = some "v".toList ∧
    (get_attr (set_attr store_empty_bucket "b".toList [] "acl".toList "v".toList).2
      "b".toList [] "acl".toList).1 = -ENODATA := by
  decide

/-- C10 (read-range length as stated) fails at `ofs = 3`, `end = 1`: the call succeeds,
the length passed to the read is 2^64 - 1 (the read returns the 8 bytes from offset 3
on), and `max(0, end - ofs + 1)` is 0. -/
theorem get_obj_read_len_wraps :
    (get_obj store_b "b".toList "k".toList 3 1 none none none none none true no_err).map
        (fun g => (g.r, g.data, g.w.cout)) =
      some (8, some "lo world".toList, [(3, 2 ^ 64 - 1)]) ∧
    ((2 ^ 64 - 1 : Nat) : Int) ≠ max 0 ((1 : Int) - 3 + 1) := by
  decide

/-- C7 (copy merges attributes as stated) fails at `X = {x: 1, z: empty}`: the copy
succeeds and the destination has the bytes of the source, `x = 1` and `y = 2`, but no
attribute `z`, although `z` is in `X`. -/
theorem copy_obj_skips_empty_attr :
    (copy_obj store_copy [] "b".toList "d".toList "b".toList "s".toList none none none none none
        [("x".toList, "1".toList), ("z".toList, [])] no_err).map
      (fun c => (c.ret, c.w.obj_data "b".toList ⟨"d".toList⟩,
        c.w.obj_attr "b".toList ⟨"d".toList⟩ "x".toList,
        c.w.obj_attr "b".toList ⟨"d".toList⟩ "y".toList,
        c.w.obj_attr "b".toList ⟨"d".toList⟩ "z".toList)) =
      some (0, "hello".toList, some "1".toList, some "2".toList, none) ∧
    map_find [("x".toList, "1".toList), ("z".toList, ([] : bufferlist))] "z".toList = some [] :=
  ⟨rfl, rfl⟩

/-- Witness of C4 at the listing of `store_dirs` with the delimiter `/`. -/
theorem list_objects_partition_witness :
    "/".toList ≠ [] ∧
    (let out := list_objects store_dirs [] "b".toList (-1) [] "/".toList [] [] []
     (out.1 < 0 ∧ out.2.1 = [] ∧ out.2.2.1 = []) ∨
     (out.1 = 0 ∧
      ∃ p, map_find store_dirs.pools "b".toList = some p ∧
        (out.2.1.map RGWObjEnt.name).Nodup ∧
        (∀ e ∈ out.2.1, e.name ∈ window (dir_keys [] p) [] (-1) ∧
          ∀ i, ([] : Str).length ≤ i → ¬ "/".toList <+: e.name.drop i) ∧
        (∀ k ∈ window (dir_keys [] p) [] (-1),
          (∃ i, ([] : Str).length ≤ i ∧ "/".toList <+: k.drop i) →
          k ∉ out.2.1.map RGWObjEnt.name ∧
          map_find out.2.2.1 (list_objects_common [] "/".toList k) = some true) ∧
        (∀ c, (∀ k ∈ window (dir_keys [] p) [] (-1),
            (∃ i, ([] : Str).length ≤ i ∧ "/".toList <+: k.drop i) →
            list_objects_common [] "/".toList k ≠ c) →
          map_find out.2.2.1 c = map_find [] c))) :=
  ⟨by decide, list_objects_partition store_dirs [] "b".toList (-1) [] "/".toList [] [] []
    (by decide)⟩

/-- Witness of C5 at the listing of `store_dirs` with the prefix `a`, the marker `a/y`
and `max = 5`. -/
theorem list_objects_window_witness :
    store_dirs.faults = [] ∧
    map_find store_dirs.pools "b".toList = some ⟨0, [("b/z".toList, ⟨"3".toList, [], 50⟩),
      ("a/y".toList, ⟨"2".toList, [], 50⟩), ("a/x".toList, ⟨"1".toList, [], 50⟩)]⟩ ∧
    ∃ S suffix taken : List Str,
      S.Pairwise (fun a b => str_lt a b = true) ∧
      (∀ k, k ∈ S ↔ k ∈ ["b/z".toList, "a/y".toList, "a/x".toList] ∧ "a".toList <+: k) ∧
      suffix <:+ S ∧
      (∀ k, k ∈ suffix ↔ k ∈ S ∧ str_lt k "a/y".toList = false) ∧
      taken = suffix.take 5 ∧
      (list_objects store_dirs [] "b".toList 5 "a".toList [] "a/y".toList [] []).1 = 0 ∧
      ((list_objects store_dirs [] "b".toList 5 "a".toList [] "a/y".toList [] []).2.1).map
        RGWObjEnt.name = taken.filter (fun k => !list_objects_skip "a".toList [] k) ∧
      (taken.head? = some "a/y".toList) ∧
      (taken.length ≤ 5) := by
  obtain ⟨S, suffix, taken, h1, h2, h3, h4, _, h6, h7, h8, _, _, h11, _, h13⟩ :=
    list_objects_window store_dirs [] "b".toList 5 "a".toList [] "a/y".toList [] []
      ⟨0, [("b/z".toList, ⟨"3".toList, [], 50⟩), ("a/y".toList, ⟨"2".toList, [], 50⟩),
        ("a/x".toList, ⟨"1".toList, [], 50⟩)]⟩ rfl rfl
  refine ⟨rfl, rfl, S, suffix, taken, h1, h2, h3, h4, h6, h7, h8, ?_, h13 (by decide)⟩
  exact h11 ((h2 _).mpr ⟨by decide, by decide⟩) (by decide)

/-- Witness of C3 at the object `k` of `store_b` (mtime 50, etag `e1`):
modified-since 51 fails with "304", if-match `wrong` and if-none-match `e1` fail with
"412", and the call without preconditions passes the checks. -/
theorem get_obj_conditional_witness :
    store_b.faults = [] ∧
    store_b.get_object "b".toList ⟨"k".toList⟩ = some object_k ∧
    get_attr store_b "b".toList "k".toList RGW_ATTR_ETAG = (0, "e1".toList, store_b) ∧
    get_obj store_b "b".toList "k".toList 0 (-1) none (some 51) none none none true no_err =
      some ⟨-ECANCELED, none, none, ⟨"304", "PreconditionFailed"⟩, store_b⟩ ∧
    get_obj store_b "b".toList "k".toList 0 (-1) none none none (some "wrong".toList) none true
        no_err =
      some ⟨-ECANCELED, none, none, ⟨"412", "PreconditionFailed"⟩, store_b⟩ ∧
    get_obj store_b "b".toList "k".toList 0 (-1) none none none none (some "e1".toList) true
        no_err =
      some ⟨-ECANCELED, none, none, ⟨"412", "PreconditionFailed"⟩, store_b⟩ ∧
    get_obj store_b "b".toList "k".toList 0 (-1) none none none none none true no_err =
      some (get_obj_data store_b "b".toList ⟨"k".toList⟩ 11 0 (-1) none true no_err) :=
  ⟨rfl, rfl, rfl,
    (get_obj_conditional store_b "b".toList "k".toList 0 (-1) none (some 51) none none true
      no_err object_k "e1".toList rfl rfl rfl).1 51 rfl (by decide),
    (get_obj_conditional store_b "b".toList "k".toList 0 (-1) none none (some "wrong".toList)
      none true no_err object_k "e1".toList rfl rfl rfl).2.1 (fun _ h => Option.noConfusion h)
      (Or.inl ⟨_, rfl, by decide⟩),
    (get_obj_conditional store_b "b".toList "k".toList 0 (-1) none none none
      (some "e1".toList) true no_err object_k "e1".toList rfl rfl rfl).2.1
      (fun _ h => Option.noConfusion h) (Or.inr ⟨_, rfl, rfl⟩),
    ((get_obj_conditional store_b "b".toList "k".toList 0 (-1) none none none none true
      no_err object_k "e1".toList rfl rfl rfl).2.2 (fun _ h => Option.noConfusion h)
      (fun _ h => Option.noConfusion h) (fun _ h => Option.noConfusion h)).1⟩

/-- Witness of C7 (amended) at the copy of `s` (attributes `x = 0`, `y = 2`) with
`X = {x: 1}`: the destination has the bytes of the source and the attributes `x = 1`,
`y = 2`. -/
theorem copy_obj_merges_witness :
    store_copy.faults = [] ∧
    copy_obj store_copy [] "b".toList "d".toList "b".toList "s".toList none none none none none
      [("x".toList, "1".toList)] no_err = some copy_result ∧
    copy_result.w.obj_data "b".toList ⟨"d".toList⟩ = "hello".toList ∧
    copy_result.w.obj_attr "b".toList ⟨"d".toList⟩ "x".toList = some "1".toList ∧
    copy_result.w.obj_attr "b".toList ⟨"d".toList⟩ "y".toList = some "2".toList ∧
    copy_result.w.obj_attr "b".toList ⟨"d".toList⟩ "z".toList = none := by
  have h := copy_obj_merges store_copy [] "b".toList "d".toList "b".toList "s".toList none none
    none none none [("x".toList, "1".toList)] no_err
    ⟨"hello".toList, [("x".toList, "0".toList), ("y".toList, "2".toList)], 50⟩ copy_result
    rfl rfl (by unfold keys_sorted; decide) (by decide) rfl (by decide)
  exact ⟨rfl, rfl, h.2.1 (by decide), h.2.2.1 _, h.2.2.1 _, h.2.2.1 _⟩

/-- Witness of C10 (amended) at `ofs = 1`, `end = 4`: the length passed to the read
is 4. -/
theorem get_obj_read_len_witness :
    get_obj store_b "b".toList "k".toList 1 4 none none none none none true no_err =
      some read_result ∧
    0 ≤ read_result.r ∧
    ∃ len : Nat, read_result.w.cout = store_b.cout ++ [(1, len)] ∧
      (len : Int) = max 0 ((4 : Int) - 1 + 1) := by
  obtain ⟨len, h1, _, _, h4⟩ := get_obj_read_len store_b "b".toList "k".toList 1 4 none none
    none none none no_err read_result rfl (by decide)
  exact ⟨rfl, by decide, len, h1, h4 (by decide) (by decide) (by decide)⟩

theorem list_objects_drain_succ (pfx : Str) (pool : rados_pool_t) (fuel : Nat) (w : Rados)
    (ctx : Nat) (dm : List (Str × object_t)) :
    list_objects_drain pfx pool (fuel + 1) w ctx dm =
      if (w.list pool MAX_ENTRIES ctx).1 < 0 then
        ((w.list pool MAX_ENTRIES ctx).1, dm, (w.list pool MAX_ENTRIES ctx).2.2.2)
      else if (w.list pool MAX_ENTRIES ctx).1 ≠ 0 then
        list_objects_drain pfx pool fuel (w.list pool MAX_ENTRIES ctx).2.2.2
          (w.list pool MAX_ENTRIES ctx).2.2.1
          (list_objects_entries pfx (w.list pool MAX_ENTRIES ctx).2.1 dm)
      else ((w.list pool MAX_ENTRIES ctx).1,
        list_objects_entries pfx (w.list pool MAX_ENTRIES ctx).2.1 dm,
        (w.list pool MAX_ENTRIES ctx).2.2.2) := by
  rw [list_objects_drain]

/-- The bound on the rounds of the drain loop of `list_objects` is never used up: with
the number of objects of the pool plus one, or any larger bound, the loop gives the
same result, whatever the faults of the store. -/
theorem list_objects_drain_fuel (pfx : Str) (pool : rados_pool_t) (n : Nat) (fuel : Nat) :
    ∀ (w : Rados) (ctx : Nat) (dm : List (Str × object_t)), 1 ≤ fuel →
      w.pool_size pool + 1 ≤ ctx + fuel →
      list_objects_drain pfx pool (fuel + n) w ctx dm =
        list_objects_drain pfx pool fuel w ctx dm := by
  induction fuel with
  | zero =>
    intro w ctx dm h
    omega
  | succ k ih =>
    intro w ctx dm _ hsz
    have e : k + 1 + n = (k + n) + 1 := by omega
    rw [e, list_objects_drain_succ, list_objects_drain_succ]
    by_cases h1 : (w.list pool MAX_ENTRIES ctx).1 < 0
    · rw [if_pos h1, if_pos h1]
    · rw [if_neg h1, if_neg h1]
      by_cases h2 : (w.list pool MAX_ENTRIES ctx).1 ≠ 0
      · rw [if_pos h2, if_pos h2]
        obtain ⟨p, hp, hx⟩ := list_spec w pool MAX_ENTRIES ctx h1
        rw [hx] at h2 ⊢
        simp only [] at h2 ⊢
        have hm : ctx + MAX_ENTRIES < p.objects.length := by
          by_contra hc
          rw [if_neg hc] at h2
          exact h2 rfl
        have hlen : (((p.objects.drop ctx).take MAX_ENTRIES).map
            (fun e => object_t.mk e.1)).length = MAX_ENTRIES := by
          rw [List.length_map, List.length_take, List.length_drop]
          omega
        have hps : w.pool_size pool = p.objects.length := by
          unfold Rados.pool_size
          rw [hp]
        have hps' : w.fault_pop.pool_size pool = p.objects.length := by
          unfold Rados.pool_size
          rw [fault_pop_pools, hp]
        rw [hlen]
        apply ih
        · unfold MAX_ENTRIES at hm
          omega
        · rw [hps']
          unfold MAX_ENTRIES at hm ⊢
          omega
      · rw [if_neg h2, if_neg h2]

theorem get_obj_cond_none (w : Rados) (bucket obj : Str) (mtime : Int) (err : rgw_err) :
    get_obj_cond w bucket obj mtime none none none none err = some (none, err, w) := rfl

/-- What a put followed by a whole-object get returns when no store call fails: the
bytes that were put, followed by what the object held behind them before the put. -/
theorem put_obj_get_obj (w : Rados) (id bucket obj : Str) (data : bufferlist)
    (mtime : Option Int) (attrs : List (Str × bufferlist)) (err : rgw_err)
    (hf : w.faults = []) (hp : ∃ p, map_find w.pools bucket = some p)
    (hn : (attrs.map Prod.fst).Nodup) :
    (put_obj w id bucket obj data data.length mtime attrs).1 = 0 ∧
    ∃ g, get_obj (put_obj w id bucket obj data data.length mtime attrs).2.2 bucket obj 0 (-1)
        none none none none none true err = some g ∧
      g.r = ((data ++ (w.obj_data bucket ⟨obj⟩).drop data.length).length : Int) ∧
      g.data.getD [] = data ++ (w.obj_data bucket ⟨obj⟩).drop data.length := by
  obtain ⟨mt, w', h1, hf', ho', hd', _⟩ := put_obj_ok w id bucket obj data mtime attrs hf hp hn
  rw [h1]
  refine ⟨rfl, ?_⟩
  show ∃ g, get_obj w' bucket obj 0 (-1) none none none none none true err = some g ∧ _
  cases ho : w'.get_object bucket ⟨obj⟩ with
  | none => exact absurd ho ho'
  | some o =>
    have hdat : o.data = data ++ (w.obj_data bucket ⟨obj⟩).drop data.length := by
      rw [← hd']
      unfold Rados.obj_data
      rw [ho]
    have hg : get_obj w' bucket obj 0 (-1) none none none none none true err =
        some (get_obj_data w' bucket ⟨obj⟩ o.data.length 0 (-1) none true err) := by
      rw [get_obj_head w' bucket obj 0 (-1) none none none none none true err o hf' ho,
        get_obj_cond_none]
      rfl
    have hr : 0 ≤ (get_obj_data w' bucket ⟨obj⟩ o.data.length 0 (-1) none true err).r := by
      unfold get_obj_data
      have hr' : ({ w' with cout := w'.cout ++ [((0 : Int), 0)] } : Rados).read bucket ⟨obj⟩ 0 0
          = ((o.data.length : Int), o.data, { w' with cout := w'.cout ++ [((0 : Int), 0)] }) :=
        read_whole_ok (w := { w' with cout := w'.cout ++ [((0 : Int), 0)] }) hf' ho
      simp only [not_true_eq_false, if_false, Int.reduceNeg, Left.neg_nonpos_iff, zero_le_one,
        if_true, hr']
      split_ifs <;> simp only [] <;> omega
    obtain ⟨g1, g2, _, _⟩ := get_obj_whole w' bucket obj none none none none none err o _ hf' ho
      hg hr
    refine ⟨_, hg, ?_, ?_⟩
    · rw [g1, hdat]
    · rw [g2, hdat]

/-- The check of `unmod_ptr` in `get_obj` compares the mtime with `*mod_ptr`: with both
dates given and the first check passed, the call fails with "412" whatever the
unmodified-since date is; with the unmodified-since date alone, `*mod_ptr` is read
through a `NULL` pointer. -/
theorem get_obj_unmod (w : Rados) (bucket obj : Str) (ofs end_ : Int)
    (attrs : Option (List (Str × bufferlist))) (m U : Int) (if_match if_nomatch : Option Str)
    (get_data : Bool) (err : rgw_err) (o : RadosObject)
    (hf : w.faults = []) (ho : w.get_object bucket ⟨obj⟩ = some o) :
    (m ≤ o.mtime →
      get_obj w bucket obj ofs end_ attrs (some m) (some U) if_match if_nomatch get_data err =
        some ⟨-ECANCELED, none, attrs.map (fun _ => o.xattrs),
          ⟨"412", "PreconditionFailed"⟩, w⟩) ∧
    get_obj w bucket obj ofs end_ attrs none (some U) if_match if_nomatch get_data err
      = none := by
  constructor
  · intro hm
    rw [get_obj_head w bucket obj ofs end_ attrs (some m) (some U) if_match if_nomatch get_data
      err o hf ho]
    unfold get_obj_cond
    have h1 : ¬ ((some m).isSome = true ∧ o.mtime < (some m).getD 0) := by
      rintro ⟨_, h⟩
      exact absurd hm (not_le.mpr h)
    rw [if_neg h1]
    simp only [ge_iff_le, if_pos hm]
  · rw [get_obj_head w bucket obj ofs end_ attrs none (some U) if_match if_nomatch get_data
      err o hf ho]
    rfl

/-! ## Writes leave the other objects alone -/

theorem set_object_get_other (w : Rados) (pool pool' : rados_pool_t) (oid oid' : object_t)
    (o : RadosObject) (h : pool = pool' → oid.name ≠ oid'.name) :
    (w.set_object pool oid o).get_object pool' oid' = w.get_object pool' oid' := by
  unfold Rados.set_object
  cases hp : map_find w.pools pool with
  | none => rfl
  | some p =>
    unfold Rados.get_object
    simp only [map_find_map_set]
    by_cases e : pool = pool'
    · subst e
      rw [if_pos rfl, hp]
      simp only [map_find_map_set, if_neg (h rfl)]
    · rw [if_neg e]

theorem set_object_no_pool (w : Rados) (pool : rados_pool_t) (oid : object_t) (o : RadosObject)
    (b : Str) (h : map_find w.pools b = none) :
    map_find (w.set_object pool oid o).pools b = none := by
  unfold Rados.set_object
  cases hp : map_find w.pools pool with
  | none => exact h
  | some p =>
    simp only [map_find_map_set]
    by_cases e : pool = b
    · subst e
      rw [hp] at h
      cases h
    · rw [if_neg e]
      exact h

theorem fault_pop_get_object (w : Rados) (pool : rados_pool_t) (oid : object_t) :
    w.fault_pop.get_object pool oid = w.get_object pool oid := rfl

theorem setxattr_get_other (w : Rados) (pool pool' : rados_pool_t) (oid oid' : object_t)
    (n : Str) (bl : bufferlist) (h : pool = pool' → oid.name ≠ oid'.name) :
    (w.setxattr pool oid n bl).2.get_object pool' oid' = w.get_object pool' oid' := by
  unfold Rados.setxattr
  split
  · rfl
  · split
    · rfl
    · split
      · exact set_object_get_other w.fault_pop pool pool' oid oid' _ h
      · exact set_object_get_other w.fault_pop pool pool' oid oid' _ h

theorem root_pool_ne_nil : root_pool ≠ [] := by decide

/-- The call `set_attr(bucket, "", name, bl)` never changes the placeholder of the
bucket in the root pool, whatever the store and its faults. -/
theorem set_attr_empty_key (w : Rados) (bucket name : Str) (bl : bufferlist) :
    (set_attr w bucket [] name bl).2.get_object root_pool ⟨bucket⟩ =
      w.get_object root_pool ⟨bucket⟩ := by
  unfold set_attr open_pool
  have h1 := open_pool_world w bucket
  by_cases hr : (w.open_pool bucket).1 < 0
  · cases hx : w.open_pool bucket with
    | mk r x =>
      obtain ⟨pool, w1⟩ := x
      rw [hx] at h1 hr
      simp only [] at h1 hr ⊢
      rw [if_pos hr, h1]
      rfl
  · obtain ⟨p, _, hx⟩ := open_pool_spec w bucket hr
    rw [hx]
    simp only [lt_self_iff_false, if_false]
    have h2 := setxattr_get_other w.fault_pop bucket root_pool ⟨[]⟩ ⟨bucket⟩ name bl
      (fun e => by
        intro e2
        apply root_pool_ne_nil
        rw [← e]
        exact e2.symm)
    cases hy : w.fault_pop.setxattr bucket ⟨[]⟩ name bl with
    | mk r2 w2 =>
      rw [hy] at h2
      simp only [] at h2 ⊢
      split <;> exact h2

/-! ## The rollback of `create_bucket` -/

theorem setxattr_no_pool (w : Rados) (pool : rados_pool_t) (oid : object_t) (n : Str)
    (bl : bufferlist) (b : Str) (h : map_find w.pools b = none) :
    map_find (w.setxattr pool oid n bl).2.pools b = none := by
  unfold Rados.setxattr
  split
  · exact h
  · split
    · exact h
    · split
      · exact set_object_no_pool w.fault_pop pool oid _ b h
      · exact set_object_no_pool w.fault_pop pool oid _ b h

theorem setxattr_keeps_object (w : Rados) (pool : rados_pool_t) (oid : object_t) (n : Str)
    (bl : bufferlist) (h : w.get_object pool oid ≠ none) :
    (w.setxattr pool oid n bl).2.get_object pool oid ≠ none := by
  unfold Rados.setxattr
  split
  · exact h
  · cases hp : map_find w.pools pool with
    | none => exact h
    | some p =>
      simp only []
      have hp' : map_find w.fault_pop.pools pool = some p := hp
      split
      · rw [set_object_get hp']
        exact Option.noConfusion
      · rw [set_object_get hp']
        exact Option.noConfusion

theorem delete_bucket_no_pool (w : Rados) (id bucket : Str)
    (h : map_find w.pools bucket = none) :
    (delete_bucket w id bucket).2 = w.fault_pop := by
  unfold delete_bucket open_pool Rados.open_pool
  rw [h]
  by_cases hf : w.fault_code < 0
  · simp only [if_pos hf]
  · have h' : -ENOENT < 0 := by decide
    simp only [if_neg hf, if_pos h']

/-- When the attribute loop of `create_bucket` ends the call (a write of an attribute
has failed) while no pool of the bucket's name exists, the placeholder it wrote to is
still in the root pool afterwards, and no pool of that name exists. -/
theorem create_bucket_attrs_keeps_placeholder (id bucket : Str)
    (attrs : List (Str × bufferlist)) :
    ∀ (w : Rados), w.get_object root_pool ⟨bucket⟩ ≠ none → map_find w.pools bucket = none →
      (create_bucket_attrs id bucket ⟨bucket⟩ attrs w).2.get_object root_pool ⟨bucket⟩ ≠ none ∧
      map_find (create_bucket_attrs id bucket ⟨bucket⟩ attrs w).2.pools bucket = none := by
  induction attrs with
  | nil =>
    intro w h1 h2
    exact ⟨h1, h2⟩
  | cons e attrs ih =>
    obtain ⟨n, bl⟩ := e
    intro w h1 h2
    unfold create_bucket_attrs
    by_cases hbl : bl.length ≠ 0
    · rw [if_pos hbl]
      have k1 := setxattr_keeps_object w root_pool ⟨bucket⟩ n bl h1
      have k2 := setxattr_no_pool w root_pool ⟨bucket⟩ n bl bucket h2
      cases hx : w.setxattr root_pool ⟨bucket⟩ n bl with
      | mk ret w1 =>
        rw [hx] at k1 k2
        simp only [] at k1 k2 ⊢
        by_cases hr : ret < 0
        · rw [if_pos hr]
          simp only []
          rw [delete_bucket_no_pool w1 id bucket k2]
          exact ⟨k1, k2⟩
        · rw [if_neg hr]
          exact ih w1 k1 k2
    · rw [if_neg hbl]
      exact ih w h1 h2

/-- A `create_bucket` that has created the placeholder and then fails on the write of
an attribute leaves the placeholder in the root pool, whatever the store and its
faults: the rollback through `delete_bucket` finds no pool to delete. -/
theorem create_bucket_no_rollback (w : Rados) (id bucket : Str)
    (attrs : List (Str × bufferlist)) (auid : Nat) (ret : Int)
    (hb : map_find w.pools bucket = none)
    (hc : ¬ (w.create root_pool ⟨bucket⟩ true).1 < 0)
    (ha : (create_bucket_attrs id bucket ⟨bucket⟩ attrs
      (w.create root_pool ⟨bucket⟩ true).2).1 = some ret) :
    (create_bucket w id bucket attrs auid).1 = ret ∧
    (create_bucket w id bucket attrs auid).2.get_object root_pool ⟨bucket⟩ ≠ none ∧
    map_find (create_bucket w id bucket attrs auid).2.pools bucket = none := by
  have hw : (w.create root_pool ⟨bucket⟩ true).2.get_object root_pool ⟨bucket⟩ ≠ none ∧
      map_find (w.create root_pool ⟨bucket⟩ true).2.pools bucket = none := by
    unfold Rados.create at hc ⊢
    by_cases hf : w.fault_code < 0
    · rw [if_pos hf] at hc
      exact absurd hf hc
    · rw [if_neg hf] at hc ⊢
      cases hp : map_find w.pools root_pool with
      | none =>
        rw [hp] at hc
        exact absurd (by decide : -ENOENT < 0) hc
      | some p =>
        rw [hp] at hc
        simp only [] at hc ⊢
        cases ho : w.get_object root_pool ⟨bucket⟩ with
        | some o =>
          rw [ho] at hc
          exact absurd (by decide : -EEXIST < 0) hc
        | none =>
          simp only []
          have hp' : map_find w.fault_pop.pools root_pool = some p := hp
          refine ⟨?_, set_object_no_pool w.fault_pop root_pool _ _ bucket hb⟩
          rw [set_object_get hp']
          exact Option.noConfusion
  have hk := create_bucket_attrs_keeps_placeholder id bucket attrs _ hw.1 hw.2
  unfold create_bucket
  cases hx : w.create root_pool ⟨bucket⟩ true with
  | mk r w1 =>
    rw [hx] at hc ha hk
    simp only [] at hc ha hk ⊢
    rw [if_neg hc]
    cases hy : create_bucket_attrs id bucket ⟨bucket⟩ attrs w1 with
    | mk oret w2 =>
      rw [hy] at ha hk
      simp only [] at ha hk
      subst ha
      exact ⟨rfl, hk.1, hk.2⟩

/-- With the two-character delimiter `ab`, the key recorded in `common_prefixes` for
`xabz` is the name of the literal result `xa`. -/
theorem list_objects_two_char_overlap :
    list_objects store_overlap [] "b".toList (-1) [] "ab".toList [] [] [] =
      (0, [⟨"xa".toList, 1, 50, []⟩], [("xa".toList, true)], store_overlap) :=
  rfl

/-- With a delimiter of one character, the key recorded in `common_prefixes` for a
skipped key ends with the delimiter, so it is the start of no key that is not skipped. -/
theorem list_objects_common_one_char (pfx : Str) (c : Char) (k k' : Str)
    (hk : list_objects_skip pfx [c] k = true) (hp : list_objects_common pfx [c] k <+: k') :
    list_objects_skip pfx [c] k' = true := by
  obtain ⟨i, h1, h2, _, h4⟩ := list_objects_common_eq pfx [c] k hk
  rw [list_objects_skip_iff pfx [c] k' (by simp)]
  refine ⟨i, h1, ?_⟩
  rw [h4] at hp
  obtain ⟨t, ht⟩ := hp
  obtain ⟨u, hu⟩ := h2
  have hlen : i < k.length := by
    by_contra hc
    rw [List.drop_of_length_le (by omega)] at hu
    simp at hu
  have e1 : k.take (i + 1) = k.take i ++ [c] := by
    have hd : k.drop i = c :: u := by rw [← hu]; rfl
    have : k = k.take i ++ c :: u := by rw [← hd, List.take_append_drop]
    conv_lhs => rw [this]
    rw [List.take_append_eq_append_take, List.length_take, Nat.min_eq_left (by omega)]
    have e2 : i + 1 - i = 1 := by omega
    rw [e2, List.take_of_length_le (by rw [List.length_take]; omega)]
    rfl
  rw [e1] at ht
  have hi : (k.take i).length = i := by rw [List.length_take]; omega
  have : k'.drop i = [c] ++ t := by
    rw [← ht, List.append_assoc, List.drop_left' hi]
  rw [this]
  exact ⟨t, rfl⟩

end RGW
